import Mathlib

/-!
Verification of the core of the Ravensburger Play MCP server: the resilient
HTTP fetch helpers (`src/lib/http.ts`), the completion-aware caches and the
round-resolution engine of the API client (`src/lib/api.ts`), and the
leaderboard aggregation of `src/tools/events.ts`.

The TypeScript code is shallowly embedded:
- a JS `Map` is an insertion-ordered association list;
- the upstream HTTP API is an explicit oracle (`Upstream`), and the module
  level caches are explicit state (`ApiState`) threaded through the
  functions; each cached fetch additionally reports how many upstream
  requests it performed;
- JS numbers are modelled exactly: integer quantities as `Nat`/`Int`, the
  jittered backoff computation (whose jitter draw is a real in [0, 1]) over
  `ℚ` with `round` for `Math.round`;
- JS strings are `String`, manipulated through character lists (`trim`,
  `split`, `toLowerCase` and `parseInt`/`parseFloat` are re-implemented on
  `List Char` with JS semantics for the inputs that occur here).
-/

namespace PlayHub

instance {ε α : Type} [DecidableEq ε] [DecidableEq α] : DecidableEq (Except ε α)
  | .error e, .error f =>
    if h : e = f then .isTrue (by rw [h]) else .isFalse fun c => by cases c; exact h rfl
  | .error _, .ok _ => .isFalse fun c => by cases c
  | .ok _, .error _ => .isFalse fun c => by cases c
  | .ok a, .ok b =>
    if h : a = b then .isTrue (by rw [h]) else .isFalse fun c => by cases c; exact h rfl

/-! ## JS `Map` model: insertion-ordered association list -/

/-- `Map.get`: the value stored at `k`, scanning in insertion order. -/
def jsMapGet {K V : Type} [DecidableEq K] : List (K × V) → K → Option V
  | [], _ => none
  | p :: rest, k => if p.1 = k then some p.2 else jsMapGet rest k

/-- `Map.set`: update in place when the key exists (a JS `Map` keeps the
original insertion position of an existing key), otherwise append. -/
def jsMapSet {K V : Type} [DecidableEq K] : List (K × V) → K → V → List (K × V)
  | [], k, v => [(k, v)]
  | p :: rest, k, v => if p.1 = k then (k, v) :: rest else p :: jsMapSet rest k v

/-- `Map.delete k`: remove the entry stored under `k`. -/
def jsMapDelete {K V : Type} [DecidableEq K] (m : List (K × V)) (k : K) : List (K × V) :=
  m.filter fun p => decide (¬p.1 = k)

/-- `evictIfNeeded` (api.ts): if the map exceeds `maxSize`, collect the first
`size - maxSize` keys in insertion (iteration) order, then delete them. -/
def evictIfNeeded {K V : Type} [DecidableEq K] (cache : List (K × V)) (maxSize : Nat) :
    List (K × V) :=
  if cache.length ≤ maxSize then cache
  else
    let toDelete := cache.length - maxSize
    let keysToDelete := (cache.take toDelete).map Prod.fst
    keysToDelete.foldl (fun c k => jsMapDelete c k) cache

/-! ## Domain data (types.ts), restricted to the fields the core reads -/

/-- `Event.settings` (types.ts). -/
structure EventSettings where
  event_lifecycle_status : Option String
deriving DecidableEq, Repr

/-- A tournament round inside an event's phase (types.ts `TournamentRound`). -/
structure TournamentRound where
  id : Nat
  round_number : Nat
deriving DecidableEq, Repr

/-- A tournament phase (types.ts `TournamentPhase`). -/
structure TournamentPhase where
  rounds : List TournamentRound
deriving DecidableEq, Repr

/-- An event (types.ts `Event`), restricted to the fields the cache and the
round-resolution engine read. -/
structure Event where
  id : Nat
  display_status : Option String
  settings : Option EventSettings
  tournament_phases : Option (List TournamentPhase)
deriving DecidableEq, Repr

/-- `entry.player` of a standing entry (types.ts `StandingEntry`). -/
structure StandingPlayer where
  id : Option Int
  best_identifier : Option String
deriving DecidableEq, Repr

/-- A tournament-round standing entry (types.ts `StandingEntry`), restricted
to the fields the leaderboard aggregation reads.
`user_event_status_best_identifier` models `entry.user_event_status?.best_identifier`,
reached through the interface's index signature. -/
structure StandingEntry where
  rank : Option Nat
  placement : Option Nat
  player : Option StandingPlayer
  player_name : Option String
  username : Option String
  display_name : Option String
  wins : Option Int
  losses : Option Int
  record : Option String
  match_record : Option String
  user_event_status_best_identifier : Option String
deriving DecidableEq, Repr

/-- One page of a paginated standings response (types.ts `StandingsResponse`),
restricted to the two fields `fetchAllRoundStandings` reads. -/
structure StandingsPage where
  results : List StandingEntry
  next_page_number : Option Nat
deriving DecidableEq, Repr

/-! ## JS string helpers (character-list semantics) -/

/-- `String.prototype.trim`. -/
def jsTrim (l : List Char) : List Char :=
  ((l.dropWhile Char.isWhitespace).reverse.dropWhile Char.isWhitespace).reverse

/-- `String.prototype.toLowerCase` (ASCII, the only case the API produces). -/
def jsToLower (s : String) : List Char :=
  s.toList.map Char.toLower

/-- Substring containment on character lists (`String.prototype.includes`). -/
def listContainsSub (hay needle : List Char) : Bool :=
  hay.tails.any fun t => needle.isPrefixOf t

/-- Split a character list at a separator character (`String.prototype.split`
with a one-character separator). -/
def splitOnChar (sep : Char) : List Char → List (List Char)
  | [] => [[]]
  | c :: rest =>
    let tail := splitOnChar sep rest
    if c = sep then [] :: tail
    else
      match tail with
      | [] => [[c]]
      | hd :: tl => (c :: hd) :: tl

/-- Value of a (non-empty) string of decimal digits. -/
def decDigitsToNat (l : List Char) : Nat :=
  l.foldl (fun acc c => acc * 10 + (c.toNat - '0'.toNat)) 0

/-- Leading decimal digits of a character list, or `none` when there are no
leading digits. -/
def leadingDigits (l : List Char) : Option Nat :=
  let ds := l.takeWhile Char.isDigit
  if ds.isEmpty then none else some (decDigitsToNat ds)

/-- JS `parseInt(s, 10)` on an already-trimmed string: optional sign, then
leading decimal digits (trailing garbage ignored); `none` models `NaN`. -/
def parseIntJs (l : List Char) : Option Int :=
  match l with
  | '-' :: rest => (leadingDigits rest).map fun n => -(n : Int)
  | '+' :: rest => (leadingDigits rest).map fun n => (n : Int)
  | _ => (leadingDigits l).map fun n => (n : Int)

/-! ## http.ts: Retry-After parsing, jittered backoff, fetchWithRetry -/

/-- http.ts `MAX_SERVER_RETRY_DELAY_MS` (used by `parseRetryAfterMs`). -/
def MAX_SERVER_RETRY_DELAY_MS : Int := 60000

/-- http.ts `MAX_BACKOFF_DELAY_MS`. -/
def MAX_BACKOFF_DELAY_MS : ℚ := 5000

/-- http.ts `clampDelay` over exact rationals (a `ℚ` is always finite, so the
`Number.isFinite` guard of the source cannot fire). -/
def clampDelay (ms maxMs : ℚ) : ℚ :=
  max 0 (min ms maxMs)

/-- http.ts `clampDelay` applied to integer millisecond values (the
`parseRetryAfterMs` call sites only ever clamp integers). -/
def clampDelayInt (ms maxMs : Int) : Int :=
  max 0 (min ms maxMs)

/-- The regex test `^[+-]?\d+(\.\d+)?$` together with the decimal value it
matches: returns `(negative sign?, integer digits, fraction digits)`. -/
def matchDecimalDigits (l : List Char) : Option (List Char × List Char) :=
  let intPart := l.takeWhile Char.isDigit
  let rest := l.dropWhile Char.isDigit
  if intPart.isEmpty then none
  else
    match rest with
    | [] => some (intPart, [])
    | '.' :: frac =>
      if frac.isEmpty then none
      else if frac.all Char.isDigit then some (intPart, frac) else none
    | _ => none

/-- Sign handling of the numeric Retry-After regex `^[+-]?\d+(\.\d+)?$`. -/
def matchNumericRetryAfter (l : List Char) : Option (Bool × List Char × List Char) :=
  match l with
  | '+' :: rest => (matchDecimalDigits rest).map fun p => (false, p)
  | '-' :: rest => (matchDecimalDigits rest).map fun p => (true, p)
  | _ => (matchDecimalDigits l).map fun p => (false, p)

/-- `Math.round(asSeconds * 1000)` for the non-negative exact decimal
`ip.fp`, in integer arithmetic: `(2a + b) / (2b)` is round-half-up of `a / b`
(`Math.round` rounds halves toward positive infinity). -/
def retryAfterRoundedMs (ip fp : List Char) : Nat :=
  decDigitsToNat ip * 1000 +
    (2 * (decDigitsToNat fp * 1000) + 10 ^ fp.length) / (2 * 10 ^ fp.length)

/-- http.ts `parseRetryAfterMs`. `Date.parse` is an oracle parameter
(`none` models `NaN`); `retryAfter = none` models a `null` header. -/
def parseRetryAfterMs (retryAfter : Option String) (dateParse : List Char → Option Int)
    (nowMs : Int) : Option Int :=
  match retryAfter with
  | none => none
  | some ra =>
    let value := jsTrim ra.toList
    if value.isEmpty then none
    else
      match matchNumericRetryAfter value with
      | some (neg, ip, fp) =>
        if neg ∧ (decDigitsToNat ip ≠ 0 ∨ decDigitsToNat fp ≠ 0) then none
        else some (clampDelayInt (retryAfterRoundedMs ip fp) MAX_SERVER_RETRY_DELAY_MS)
      | none =>
        match dateParse value with
        | none => none
        | some asDateMs => some (clampDelayInt (asDateMs - nowMs) MAX_SERVER_RETRY_DELAY_MS)

/-- http.ts `getJitteredBackoffDelayMs`: exponential backoff with jitter,
computed over exact rationals; `Math.round` is `round`. -/
def getJitteredBackoffDelayMs (attempt : Nat) (baseDelayMs : ℚ) (random : ℚ) : ℤ :=
  let safeBaseDelayMs := clampDelay baseDelayMs MAX_BACKOFF_DELAY_MS
  if safeBaseDelayMs = 0 then 0
  else
    let exponential := min (safeBaseDelayMs * 2 ^ attempt) MAX_BACKOFF_DELAY_MS
    let normalizedRandom := max 0 (min random 1)
    let jitterMultiplier := 1 / 2 + normalizedRandom
    round (min (exponential * jitterMultiplier) MAX_BACKOFF_DELAY_MS)

/-- http.ts `RETRYABLE_STATUS_CODES`. -/
def RETRYABLE_STATUS_CODES : List Nat := [408, 425, 429, 500, 502, 503, 504]

/-- Membership in the retryable status set. -/
def retryableStatus (status : Nat) : Bool :=
  RETRYABLE_STATUS_CODES.contains status

/-- http.ts `DEFAULT_MAX_RETRIES`. -/
def DEFAULT_MAX_RETRIES : Nat := 1

/-- A JS throwable as `fetchWithRetry` classifies it: whether it is an
`Error` instance, its `name`, its `message`, and whether it is a `TypeError`
(how network-level fetch failures surface). -/
structure JsError where
  isError : Bool
  name : String
  message : String
  isTypeError : Bool
deriving DecidableEq, Repr

/-- http.ts `RETRYABLE_ERROR_NAMES`. -/
def RETRYABLE_ERROR_NAMES : List String := ["AbortError", "TimeoutError"]

/-- http.ts `isRetryableError`. -/
def isRetryableError (e : JsError) : Bool :=
  if !e.isError then false
  else if RETRYABLE_ERROR_NAMES.contains e.name then true
  else if listContainsSub e.message.toList "Request timed out".toList then true
  else e.isTypeError

/-- An HTTP response as `fetchWithRetry` observes it. -/
structure Response where
  status : Nat
  body : String
deriving DecidableEq, Repr

/-- `Response.ok`: status in the 2xx range. -/
def responseOk (r : Response) : Bool :=
  decide (200 ≤ r.status ∧ r.status ≤ 299)

/-- The outcome of one `fetch` attempt: a response, or a thrown value. -/
inductive FetchOutcome where
  | resp (r : Response)
  | err (e : JsError)
deriving DecidableEq, Repr

/-- The `Error("Request failed after retries.")` synthesized when the loop
exits with a non-`Error` last error (unreachable for `maxRetries ≥ 0`). -/
def requestFailedError : JsError :=
  { isError := true, name := "Error", message := "Request failed after retries."
    isTypeError := false }

/-- The retry loop of http.ts `fetchWithRetry`. `attempts i` is the outcome
of the `i`-th `fetch` call (an oracle covering network and server behaviour).
`fuel` counts the loop iterations still allowed and equals
`maxRetries + 1 - attempt`; the `fuel = 0` branch is the `throw lastError`
after the loop. Sleeping between attempts and draining the response body have
no observable effect here. Returns the result together with the number of
`fetch` calls performed. -/
def fetchWithRetryGo (attempts : Nat → FetchOutcome) (maxRetries : Nat) :
    Nat → Nat → Option JsError → Except JsError Response × Nat
  | 0, _, lastError => (.error (lastError.getD requestFailedError), 0)
  | fuel + 1, attempt, lastError =>
    match attempts attempt with
    | .resp r =>
      if responseOk r then (.ok r, 1)
      else if attempt < maxRetries ∧ retryableStatus r.status = true then
        match fetchWithRetryGo attempts maxRetries fuel (attempt + 1) lastError with
        | (res, n) => (res, n + 1)
      else (.ok r, 1)
    | .err e =>
      if attempt < maxRetries ∧ isRetryableError e = true then
        match fetchWithRetryGo attempts maxRetries fuel (attempt + 1) (some e) with
        | (res, n) => (res, n + 1)
      else (.error e, 1)

/-- http.ts `fetchWithRetry`, as a function of the per-attempt outcomes and
the policy's `maxRetries`. -/
def fetchWithRetry (attempts : Nat → FetchOutcome) (maxRetries : Nat) :
    Except JsError Response × Nat :=
  fetchWithRetryGo attempts maxRetries (maxRetries + 1) 0 none

/-! ## api.ts: completion-aware caches and round resolution -/

/-- api.ts `EVENT_CACHE_MAX_SIZE`. -/
def EVENT_CACHE_MAX_SIZE : Nat := 500

/-- api.ts `ROUND_STANDINGS_CACHE_MAX_SIZE`. -/
def ROUND_STANDINGS_CACHE_MAX_SIZE : Nat := 1000

/-- api.ts `STANDINGS_PAGE_SIZE`. -/
def STANDINGS_PAGE_SIZE : Nat := 100

/-- api.ts `STANDINGS_MAX_PAGES`. -/
def STANDINGS_MAX_PAGES : Nat := 50

/-- The two module-level caches of api.ts. -/
structure ApiState where
  eventCache : List (Nat × Event)
  roundStandingsCache : List (Nat × List StandingEntry)
deriving DecidableEq, Repr

/-- The caches' keys are distinct — true of every reachable state, since a JS
`Map` cannot hold a key twice. -/
def stateWF (s : ApiState) : Prop :=
  (s.eventCache.map Prod.fst).Nodup ∧ (s.roundStandingsCache.map Prod.fst).Nodup

/-- api.ts `clearCaches`. -/
def clearCaches : ApiState :=
  { eventCache := [], roundStandingsCache := [] }

/-- The upstream HTTP API as an oracle: event details by id, and one
standings page by `(roundId, page, pageSize)`. `Except.error` models a fetch
that throws (non-2xx response or transport failure). -/
structure Upstream where
  fetchEvent : Nat → Except String Event
  fetchStandingsPage : Nat → Nat → Nat → Except String StandingsPage

/-- api.ts `isEventCompleted`. -/
def isEventCompleted (event : Event) : Bool :=
  let status := event.display_status.map jsToLower
  let lifecycle := (event.settings.bind EventSettings.event_lifecycle_status).map jsToLower
  status == some "past".toList || lifecycle == some "completed".toList ||
    lifecycle == some "past".toList

/-- api.ts `fetchEventDetails`: serve from the event cache when present;
otherwise fetch, and cache the result (evicting if needed) only when the
event is completed. The final component counts upstream requests. -/
def fetchEventDetails (u : Upstream) (s : ApiState) (eventId : Nat) :
    Except String Event × ApiState × Nat :=
  match jsMapGet s.eventCache eventId with
  | some cached => (.ok cached, s, 0)
  | none =>
    match u.fetchEvent eventId with
    | .error msg => (.error msg, s, 1)
    | .ok event =>
      if isEventCompleted event then
        (.ok event,
          { s with
            eventCache := evictIfNeeded (jsMapSet s.eventCache eventId event)
              EVENT_CACHE_MAX_SIZE },
          1)
      else (.ok event, s, 1)

/-- The page-walking loop of api.ts `fetchAllRoundStandings`. `fuel` counts
the pages still allowed and equals `STANDINGS_MAX_PAGES + 1 - page`, so the
`fuel = 0` branch is the loop guard `page ≤ STANDINGS_MAX_PAGES` failing.
Returns the collected entries (or the first thrown page error) and the
number of page requests performed. -/
def standingsLoopGo (u : Upstream) (roundId : Nat) :
    Nat → Nat → Bool → Except String (List StandingEntry) × Nat
  | 0, _, _ => (.ok [], 0)
  | fuel + 1, page, hasMore =>
    if hasMore then
      match u.fetchStandingsPage roundId page STANDINGS_PAGE_SIZE with
      | .error msg => (.error msg, 1)
      | .ok response =>
        let nextHasMore := response.next_page_number.isSome &&
          response.results.length == STANDINGS_PAGE_SIZE
        match standingsLoopGo u roundId fuel (page + 1) nextHasMore with
        | (.error msg, n) => (.error msg, n + 1)
        | (.ok rest, n) => (.ok (response.results ++ rest), n + 1)
    else (.ok [], 0)

/-- api.ts `fetchAllRoundStandings`: read the round cache only for completed
events; walk all pages; write the cache only for a completed event with a
non-empty result. The final component counts upstream page requests. -/
def fetchAllRoundStandings (u : Upstream) (s : ApiState) (roundId : Nat)
    (isPastEvent : Bool) : Except String (List StandingEntry) × ApiState × Nat :=
  match (if isPastEvent then jsMapGet s.roundStandingsCache roundId else none) with
  | some cached => (.ok cached, s, 0)
  | none =>
    match standingsLoopGo u roundId STANDINGS_MAX_PAGES 1 true with
    | (.error msg, n) => (.error msg, s, n)
    | (.ok all, n) =>
      if isPastEvent = true ∧ 0 < all.length then
        (.ok all,
          { s with
            roundStandingsCache := evictIfNeeded (jsMapSet s.roundStandingsCache roundId all)
              ROUND_STANDINGS_CACHE_MAX_SIZE },
          n)
      else (.ok all, s, n)

/-- A flattened round candidate of api.ts `getEventStandings`. -/
structure RoundRef where
  id : Nat
  round_number : Nat
  phase_index : Nat
deriving DecidableEq, Repr

/-- Flatten all rounds across all phases, tagged with their phase index. -/
def flattenRounds (phases : List TournamentPhase) : List RoundRef :=
  phases.enum.flatMap fun pi =>
    if pi.2.rounds.length = 0 then []
    else pi.2.rounds.map fun r =>
      { id := r.id, round_number := r.round_number, phase_index := pi.1 }

/-- `a` sorts no later than `b` under the comparator
`(a, b) => b.phase_index - a.phase_index || b.round_number - a.round_number || b.id - a.id`:
phase index descending, then round number descending, then round id
descending. -/
def roundLE (a b : RoundRef) : Prop :=
  b.phase_index < a.phase_index ∨
    (b.phase_index = a.phase_index ∧
      (b.round_number < a.round_number ∨
        (b.round_number = a.round_number ∧ b.id ≤ a.id)))

instance : DecidableRel roundLE := fun a b => by
  unfold roundLE; infer_instance

instance : IsTotal RoundRef roundLE :=
  ⟨by intro a b; unfold roundLE; omega⟩

instance : IsTrans RoundRef roundLE :=
  ⟨by intro a b c hab hbc; unfold roundLE at *; omega⟩

/-- `allRounds.sort(comparator)`: JS `Array.prototype.sort` is a stable sort,
modelled by a stable sort with respect to `roundLE`. -/
def sortRounds (rounds : List RoundRef) : List RoundRef :=
  rounds.insertionSort roundLE

/-- The candidate loop of api.ts `getEventStandings`: try each round in
order, return the first non-empty standings list; a round whose fetch throws
is skipped. -/
def tryRounds (u : Upstream) (event : Event) (isPast : Bool) :
    ApiState → List RoundRef → Option (Event × List StandingEntry) × ApiState
  | s, [] => (none, s)
  | s, round :: rest =>
    match fetchAllRoundStandings u s round.id isPast with
    | (.ok standings, s1, _) =>
      if 0 < standings.length then (some (event, standings), s1)
      else tryRounds u event isPast s1 rest
    | (.error _, s1, _) => tryRounds u event isPast s1 rest

/-- api.ts `getEventStandings`: event details plus the standings of the
latest round that has data, or `none`. -/
def getEventStandings (u : Upstream) (s : ApiState) (eventId : Nat) :
    Except String (Option (Event × List StandingEntry)) × ApiState :=
  match fetchEventDetails u s eventId with
  | (.error msg, s1, _) => (.error msg, s1)
  | (.ok event, s1, _) =>
    let phases := event.tournament_phases.getD []
    if phases.length = 0 then (.ok none, s1)
    else
      let isPast := isEventCompleted event
      let allRounds := sortRounds (flattenRounds phases)
      match tryRounds u event isPast s1 allRounds with
      | (result, s2) => (.ok result, s2)

/-- Pure counterpart of the candidate loop: the standings of the first round
(in list order) whose fetch outcome is a non-empty list; fetch errors are
skipped. -/
def firstRoundStandings (fetchRound : Nat → Except String (List StandingEntry)) :
    List RoundRef → Option (List StandingEntry)
  | [] => none
  | round :: rest =>
    match fetchRound round.id with
    | .ok standings =>
      if 0 < standings.length then some standings else firstRoundStandings fetchRound rest
    | .error _ => firstRoundStandings fetchRound rest

/-- `n` repetitions of `fetchEventDetails` for the same event id, returning
the final cache state. -/
def repeatFetchEvent (u : Upstream) (eventId : Nat) : Nat → ApiState → ApiState
  | 0, s => s
  | n + 1, s => repeatFetchEvent u eventId n (fetchEventDetails u s eventId).2.1

/-- The results of the page `fetchTournamentRoundStandings(roundId, page,
STANDINGS_PAGE_SIZE)` would deliver (empty for a throwing page). -/
def pageResults (u : Upstream) (roundId page : Nat) : List StandingEntry :=
  match u.fetchStandingsPage roundId page STANDINGS_PAGE_SIZE with
  | .ok response => response.results
  | .error _ => []

/-- Concatenation of the results of `n` successive pages starting at `page`. -/
def pagesConcat (u : Upstream) (roundId : Nat) : Nat → Nat → List StandingEntry
  | _, 0 => []
  | page, n + 1 => pageResults u roundId page ++ pagesConcat u roundId (page + 1) n

/-! ## events.ts: leaderboard aggregation -/

/-- formatters.ts `parseRecordToWinsLosses`: parse `"W-L"` / `"W-L-T"`;
anything unparsable yields `(0, 0)`. -/
def parseRecordToWinsLosses (record : Option String) : Int × Int :=
  match record with
  | none => (0, 0)
  | some r =>
    if (jsTrim r.toList).isEmpty then (0, 0)
    else
      let parts := (splitOnChar '-' r.toList).map fun s => parseIntJs (jsTrim s)
      match parts with
      | some a :: some b :: _ => (a, b)
      | _ => (0, 0)

/-- events.ts `standingWinsLosses`: explicit numeric fields when both are
present, otherwise the parsed record string. -/
def standingWinsLosses (entry : StandingEntry) : Int × Int :=
  match entry.wins, entry.losses with
  | some w, some l => (w, l)
  | _, _ =>
    parseRecordToWinsLosses (entry.record.orElse fun _ => entry.match_record)

/-- events.ts `standingPlayerKey`: prefer `player.id`, else fall back through
the name fields; `"—"` marks an unusable identity. -/
def standingPlayerKey (entry : StandingEntry) : String :=
  match entry.player.bind StandingPlayer.id with
  | some pid => "player_id:" ++ toString pid
  | none =>
    match entry.player.bind StandingPlayer.best_identifier with
    | some s => s
    | none =>
      match entry.player_name with
      | some s => s
      | none =>
        match entry.display_name with
        | some s => s
        | none => entry.username.getD "—"

/-- events.ts `standingPlayerDisplayName`. -/
def standingPlayerDisplayName (entry : StandingEntry) : String :=
  match entry.user_event_status_best_identifier with
  | some s => s
  | none =>
    match entry.player.bind StandingPlayer.best_identifier with
    | some s => s
    | none =>
      match entry.player_name with
      | some s => s
      | none =>
        match entry.display_name with
        | some s => s
        | none => entry.username.getD "—"

/-- events.ts `standingPlacement`: `rank ?? placement ?? index + 1`. -/
def standingPlacement (entry : StandingEntry) (index : Nat) : Nat :=
  match entry.rank with
  | some v => v
  | none =>
    match entry.placement with
    | some v => v
    | none => index + 1

/-- One per-identity accumulator of the `get_player_leaderboard` loop. -/
structure AggRec where
  displayName : String
  hasUserEventStatus : Bool
  wins : Int
  losses : Int
  eventsPlayed : Nat
  placements : List Nat
deriving DecidableEq, Repr

/-- The body of the aggregation loop of `get_player_leaderboard` for one
standing entry `q = (index, entry)`. -/
def aggApply (agg : List (String × AggRec)) (q : Nat × StandingEntry) :
    List (String × AggRec) :=
  let entry := q.2
  let key := standingPlayerKey entry
  if key = "—" then agg
  else
    let displayName := standingPlayerDisplayName entry
    let hasUserEventStatus := entry.user_event_status_best_identifier.isSome
    let placement := standingPlacement entry q.1
    let wl := standingWinsLosses entry
    let start : AggRec :=
      match jsMapGet agg key with
      | none =>
        { displayName := displayName, hasUserEventStatus := hasUserEventStatus
          wins := 0, losses := 0, eventsPlayed := 0, placements := [] }
      | some r =>
        if hasUserEventStatus && !r.hasUserEventStatus then
          { r with displayName := displayName, hasUserEventStatus := true }
        else r
    jsMapSet agg key
      { start with
        wins := start.wins + wl.1, losses := start.losses + wl.2
        eventsPlayed := start.eventsPlayed + 1
        placements := start.placements ++ [placement] }

/-- The inner loop over one event's standings (indexed). -/
def processStandings (agg : List (String × AggRec)) (standings : List StandingEntry) :
    List (String × AggRec) :=
  standings.enum.foldl aggApply agg

/-- The full aggregation loop of `get_player_leaderboard` over the per-event
standings delivered by `fetchAllEventStandings`. -/
def aggregateStandings (eventStandings : List (Event × List StandingEntry)) :
    List (String × AggRec) :=
  eventStandings.foldl (fun agg p => processStandings agg p.2) []

/-- types.ts `PlayerStats`. -/
structure PlayerStats where
  playerName : String
  totalWins : Int
  totalLosses : Int
  eventsPlayed : Nat
  bestPlacement : Nat
  firstPlaceFinishes : Nat
  placements : List Nat
deriving DecidableEq, Repr

/-- `Math.min(...xs)` for a non-empty list (the aggregator only applies it to
non-empty placement lists). -/
def listMin : List Nat → Nat
  | [] => 0
  | h :: t => t.foldl Nat.min h

/-- The `PlayerStats` built from one accumulator record. -/
def toStats (r : AggRec) : PlayerStats :=
  { playerName := r.displayName, totalWins := r.wins, totalLosses := r.losses
    eventsPlayed := r.eventsPlayed, bestPlacement := listMin r.placements
    firstPlaceFinishes := (r.placements.filter fun p => p = 1).length
    placements := r.placements }

/-- The leaderboard's player list before sorting and truncation: accumulate,
drop identities below `minEvents`, build `PlayerStats`. -/
def leaderboardPlayers (eventStandings : List (Event × List StandingEntry))
    (minEvents : Nat) : List PlayerStats :=
  (((aggregateStandings eventStandings).map Prod.snd).filter
    fun r => minEvents ≤ r.eventsPlayed).map toStats

/-- The `(index, entry)` pairs of all standings lists, in processing order. -/
def allIndexedEntries (eventStandings : List (Event × List StandingEntry)) :
    List (Nat × StandingEntry) :=
  eventStandings.flatMap fun p => p.2.enum

/-- The indexed entries contributing to identity `k`. -/
def keyEntries (eventStandings : List (Event × List StandingEntry)) (k : String) :
    List (Nat × StandingEntry) :=
  (allIndexedEntries eventStandings).filter fun q => standingPlayerKey q.2 = k

/-! ## Concrete data for witnesses and counterexamples -/

/-- A standing entry with every field absent. -/
def emptyEntry : StandingEntry :=
  ⟨none, none, none, none, none, none, none, none, none, none, none⟩

/-- First sample standing entry. -/
def sampleEntryA : StandingEntry := { emptyEntry with rank := some 1 }

/-- Second sample standing entry. -/
def sampleEntryB : StandingEntry := { emptyEntry with rank := some 2 }

/-- A completed event (id 20) with one phase holding round 7. -/
def sampleEvent : Event := ⟨20, some "past", none, some [⟨[⟨7, 1⟩]⟩]⟩

/-- An upcoming event (id 21). -/
def upcomingEvent : Event := ⟨21, some "upcoming", none, none⟩

/-- An upstream serving events 20 (completed) and 21 (upcoming), and two
standings pages for round 7: page 1 holds one entry but still advertises a
next page, page 2 holds one entry and ends the listing. -/
def sampleUpstream : Upstream :=
  { fetchEvent := fun eventId =>
      if eventId = 20 then .ok sampleEvent
      else if eventId = 21 then .ok upcomingEvent
      else .error "not found"
    fetchStandingsPage := fun roundId page _ =>
      if roundId = 7 ∧ page = 1 then .ok ⟨[sampleEntryA], some 2⟩
      else if roundId = 7 ∧ page = 2 then .ok ⟨[sampleEntryB], none⟩
      else .error "not found" }

/-- Player identity 42 for the leaderboard example. -/
def leaderPlayer42 : StandingPlayer := ⟨some 42, some "Alice"⟩

/-- Standing of player 42 with record `"3-0"`. -/
def leaderEntry1 : StandingEntry :=
  { emptyEntry with player := some leaderPlayer42, record := some "3-0" }

/-- Standing of player 42 with record `"2-1"`. -/
def leaderEntry2 : StandingEntry :=
  { emptyEntry with player := some leaderPlayer42, record := some "2-1" }

/-- Two analyzed events in which player 42 appears with records `"3-0"` and
`"2-1"`. -/
def leaderExample : List (Event × List StandingEntry) :=
  [(⟨10, some "past", none, none⟩, [leaderEntry1]),
   (⟨11, some "past", none, none⟩, [leaderEntry2])]

/-! ## Lemmas about the JS `Map` model -/

section MapLemmas

variable {K V : Type} [DecidableEq K]

theorem jsMapGet_eq_none_iff (m : List (K × V)) (k : K) :
    jsMapGet m k = none ↔ k ∉ m.map Prod.fst := by
  induction m with
  | nil => simp [jsMapGet]
  | cons p rest ih =>
    by_cases h : p.1 = k
    · simp [jsMapGet, h]
    · simp [jsMapGet, h, ih]
      exact fun _ hc => h hc.symm

theorem mem_of_jsMapGet_eq_some {m : List (K × V)} {k : K} {v : V}
    (h : jsMapGet m k = some v) : (k, v) ∈ m := by
  induction m with
  | nil => simp [jsMapGet] at h
  | cons p rest ih =>
    by_cases hk : p.1 = k
    · simp only [jsMapGet, hk, if_pos] at h
      cases h
      have hpe : (k, p.2) = p := by rw [← hk]
      rw [hpe]
      exact List.mem_cons_self _ _
    · simp only [jsMapGet, hk, if_neg, not_false_iff] at h
      exact List.mem_cons_of_mem _ (ih h)

theorem jsMapGet_eq_some_of_mem {m : List (K × V)} {k : K} {v : V}
    (hnd : (m.map Prod.fst).Nodup) (h : (k, v) ∈ m) : jsMapGet m k = some v := by
  induction m with
  | nil => simp at h
  | cons p rest ih =>
    simp only [List.map_cons, List.nodup_cons] at hnd
    rcases List.mem_cons.mp h with h | h
    · cases h
      simp [jsMapGet]
    · have hne : p.1 ≠ k := by
        intro hc
        exact hnd.1 (hc ▸ (List.mem_map.mpr ⟨(k, v), h, rfl⟩))
      simp [jsMapGet, hne, ih hnd.2 h]

theorem jsMapGet_jsMapSet_self (m : List (K × V)) (k : K) (v : V) :
    jsMapGet (jsMapSet m k v) k = some v := by
  induction m with
  | nil => simp [jsMapGet, jsMapSet]
  | cons p rest ih =>
    by_cases h : p.1 = k <;> simp [jsMapGet, jsMapSet, h, ih]

theorem jsMapGet_jsMapSet_ne (m : List (K × V)) {k k1 : K} (v : V) (h : k1 ≠ k) :
    jsMapGet (jsMapSet m k v) k1 = jsMapGet m k1 := by
  have hne : ¬k = k1 := fun hc => h hc.symm
  induction m with
  | nil => simp [jsMapGet, jsMapSet, hne]
  | cons p rest ih =>
    by_cases hp : p.1 = k
    · simp [jsMapSet, hp, jsMapGet, hne]
    · simp [jsMapSet, hp, jsMapGet, ih]

theorem jsMapSet_eq_append {m : List (K × V)} {k : K} (v : V)
    (h : jsMapGet m k = none) : jsMapSet m k v = m ++ [(k, v)] := by
  induction m with
  | nil => simp [jsMapSet]
  | cons p rest ih =>
    by_cases hp : p.1 = k
    · simp [jsMapGet, hp] at h
    · simp only [jsMapGet, hp, if_neg, not_false_iff] at h
      simp [jsMapSet, hp, ih h]

theorem keys_jsMapSet_of_none {m : List (K × V)} {k : K} (v : V)
    (h : jsMapGet m k = none) :
    (jsMapSet m k v).map Prod.fst = m.map Prod.fst ++ [k] := by
  rw [jsMapSet_eq_append v h]
  simp

theorem keys_jsMapSet_of_some {m : List (K × V)} {k : K} {v0 : V} (v : V)
    (h : jsMapGet m k = some v0) :
    (jsMapSet m k v).map Prod.fst = m.map Prod.fst := by
  induction m with
  | nil => simp [jsMapGet] at h
  | cons p rest ih =>
    by_cases hp : p.1 = k
    · simp [jsMapSet, hp]
    · simp only [jsMapGet, hp, if_neg, not_false_iff] at h
      simp [jsMapSet, hp, ih h]

theorem nodup_keys_jsMapSet {m : List (K × V)} (k : K) (v : V)
    (hnd : (m.map Prod.fst).Nodup) : ((jsMapSet m k v).map Prod.fst).Nodup := by
  cases h : jsMapGet m k with
  | none =>
    rw [keys_jsMapSet_of_none v h]
    have hk : k ∉ m.map Prod.fst := (jsMapGet_eq_none_iff m k).mp h
    simp [List.nodup_append, hnd, hk]
  | some v0 => rw [keys_jsMapSet_of_some v h]; exact hnd

theorem length_jsMapSet_le (m : List (K × V)) (k : K) (v : V) :
    (jsMapSet m k v).length ≤ m.length + 1 := by
  induction m with
  | nil => simp [jsMapSet]
  | cons p rest ih =>
    by_cases hp : p.1 = k
    · simp [jsMapSet, hp]
    · simp only [jsMapSet, hp, if_neg, not_false_iff, List.length_cons]
      omega

theorem jsMapDelete_eq_of_not_mem {m : List (K × V)} {k : K}
    (h : k ∉ m.map Prod.fst) : jsMapDelete m k = m := by
  induction m with
  | nil => rfl
  | cons p rest ih =>
    simp only [List.map_cons, List.mem_cons, not_or] at h
    have h1 : ¬p.1 = k := fun hc => h.1 hc.symm
    have h2 := ih h.2
    simp only [jsMapDelete] at h2 ⊢
    have hd : (decide (¬p.1 = k)) = true := by simp [h1]
    rw [List.filter_cons, hd, if_pos rfl, h2]

theorem foldl_jsMapDelete_take {m : List (K × V)} (hnd : (m.map Prod.fst).Nodup) :
    ∀ n : Nat, ((m.take n).map Prod.fst).foldl (fun c k => jsMapDelete c k) m = m.drop n := by
  induction m with
  | nil => intro n; simp
  | cons p rest ih =>
    intro n
    cases n with
    | zero => simp
    | succ n =>
      simp only [List.map_cons, List.nodup_cons] at hnd
      have h1 : jsMapDelete (p :: rest) p.1 = rest := by
        have : ¬¬p.1 = p.1 := by simp
        simp only [jsMapDelete, List.filter_cons, decide_eq_true_eq, this, if_neg,
          not_false_iff, ite_false]
        exact jsMapDelete_eq_of_not_mem hnd.1
      simp only [List.take_succ_cons, List.map_cons, List.foldl_cons, h1, List.drop_succ_cons]
      exact ih hnd.2 n

theorem evictIfNeeded_eq_drop {m : List (K × V)} (maxSize : Nat)
    (hnd : (m.map Prod.fst).Nodup) :
    evictIfNeeded m maxSize = m.drop (m.length - maxSize) := by
  unfold evictIfNeeded
  by_cases h : m.length ≤ maxSize
  · simp [h, Nat.sub_eq_zero_of_le h]
  · simp only [h, if_false]
    exact foldl_jsMapDelete_take hnd _

theorem length_evictIfNeeded {m : List (K × V)} (maxSize : Nat)
    (hnd : (m.map Prod.fst).Nodup) :
    (evictIfNeeded m maxSize).length = min m.length maxSize := by
  rw [evictIfNeeded_eq_drop maxSize hnd, List.length_drop]
  omega

theorem jsMapGet_append (l1 l2 : List (K × V)) (k : K) :
    jsMapGet (l1 ++ l2) k =
      match jsMapGet l1 k with
      | some v => some v
      | none => jsMapGet l2 k := by
  induction l1 with
  | nil => simp [jsMapGet]
  | cons p rest ih =>
    by_cases hp : p.1 = k <;> simp [jsMapGet, hp, ih]

theorem jsMapGet_drop_eq_none {m : List (K × V)} {k : K} (d : Nat)
    (h : jsMapGet m k = none) : jsMapGet (m.drop d) k = none := by
  rw [jsMapGet_eq_none_iff] at h ⊢
  intro hc
  rcases List.mem_map.mp hc with ⟨q, hq, hqk⟩
  exact h (List.mem_map.mpr ⟨q, List.mem_of_mem_drop hq, hqk⟩)

theorem jsMapGet_of_drop_eq_some {m : List (K × V)} {k : K} {v : V} {d : Nat}
    (hnd : (m.map Prod.fst).Nodup) (h : jsMapGet (m.drop d) k = some v) :
    jsMapGet m k = some v :=
  jsMapGet_eq_some_of_mem hnd (List.mem_of_mem_drop (mem_of_jsMapGet_eq_some h))

end MapLemmas

theorem nodup_keys_drop {K V : Type} {m : List (K × V)} (d : Nat)
    (hnd : (m.map Prod.fst).Nodup) : ((m.drop d).map Prod.fst).Nodup := by
  rw [List.map_drop]
  exact hnd.sublist (List.drop_sublist d _)

/-! ## Branch equations for the cached fetches -/

theorem fetchEventDetails_hit {u : Upstream} {s : ApiState} {eventId : Nat} {e : Event}
    (h : jsMapGet s.eventCache eventId = some e) :
    fetchEventDetails u s eventId = (.ok e, s, 0) := by
  simp only [fetchEventDetails, h]

theorem fetchEventDetails_miss_error {u : Upstream} {s : ApiState} {eventId : Nat}
    {msg : String} (h : jsMapGet s.eventCache eventId = none)
    (hf : u.fetchEvent eventId = .error msg) :
    fetchEventDetails u s eventId = (.error msg, s, 1) := by
  simp only [fetchEventDetails, h, hf]

theorem fetchEventDetails_miss_completed {u : Upstream} {s : ApiState} {eventId : Nat}
    {e : Event} (h : jsMapGet s.eventCache eventId = none) (hf : u.fetchEvent eventId = .ok e)
    (hc : isEventCompleted e = true) :
    fetchEventDetails u s eventId =
      (.ok e,
        { s with
          eventCache := evictIfNeeded (jsMapSet s.eventCache eventId e) EVENT_CACHE_MAX_SIZE },
        1) := by
  simp only [fetchEventDetails, h, hf, hc, if_true]

theorem fetchEventDetails_miss_incomplete {u : Upstream} {s : ApiState} {eventId : Nat}
    {e : Event} (h : jsMapGet s.eventCache eventId = none) (hf : u.fetchEvent eventId = .ok e)
    (hc : isEventCompleted e = false) :
    fetchEventDetails u s eventId = (.ok e, s, 1) := by
  simp only [fetchEventDetails, h, hf, hc, Bool.false_eq_true, if_false]

theorem fetchAllRoundStandings_hit {u : Upstream} {s : ApiState} {roundId : Nat}
    {cached : List StandingEntry} (h : jsMapGet s.roundStandingsCache roundId = some cached) :
    fetchAllRoundStandings u s roundId true = (.ok cached, s, 0) := by
  simp only [fetchAllRoundStandings, if_true, h]

theorem fetchAllRoundStandings_miss_error {u : Upstream} {s : ApiState} {roundId : Nat}
    {past : Bool} {msg : String} {n : Nat}
    (hmiss : (if past = true then jsMapGet s.roundStandingsCache roundId else none) = none)
    (hl : standingsLoopGo u roundId STANDINGS_MAX_PAGES 1 true = (.error msg, n)) :
    fetchAllRoundStandings u s roundId past = (.error msg, s, n) := by
  simp only [fetchAllRoundStandings, hmiss, hl]

theorem fetchAllRoundStandings_miss_ok_write {u : Upstream} {s : ApiState} {roundId : Nat}
    {past : Bool} {all : List StandingEntry} {n : Nat}
    (hmiss : (if past = true then jsMapGet s.roundStandingsCache roundId else none) = none)
    (hl : standingsLoopGo u roundId STANDINGS_MAX_PAGES 1 true = (.ok all, n))
    (hc : past = true ∧ 0 < all.length) :
    fetchAllRoundStandings u s roundId past =
      (.ok all,
        { s with
          roundStandingsCache :=
            evictIfNeeded (jsMapSet s.roundStandingsCache roundId all)
              ROUND_STANDINGS_CACHE_MAX_SIZE },
        n) := by
  obtain ⟨hpast, hpos⟩ := hc
  subst hpast
  simp only [if_true] at hmiss
  simp [fetchAllRoundStandings, hmiss, hl, hpos]

theorem fetchAllRoundStandings_miss_ok_nowrite {u : Upstream} {s : ApiState} {roundId : Nat}
    {past : Bool} {all : List StandingEntry} {n : Nat}
    (hmiss : (if past = true then jsMapGet s.roundStandingsCache roundId else none) = none)
    (hl : standingsLoopGo u roundId STANDINGS_MAX_PAGES 1 true = (.ok all, n))
    (hc : ¬(past = true ∧ 0 < all.length)) :
    fetchAllRoundStandings u s roundId past = (.ok all, s, n) := by
  simp only [fetchAllRoundStandings, hmiss, hl, hc, if_false]

/-- Exhaustive branch analysis for `fetchAllRoundStandings`. -/
theorem fetchAllRoundStandings_cases (u : Upstream) (s : ApiState) (roundId : Nat)
    (past : Bool) :
    (∃ cached, past = true ∧ jsMapGet s.roundStandingsCache roundId = some cached ∧
        fetchAllRoundStandings u s roundId past = (.ok cached, s, 0)) ∨
    ((if past = true then jsMapGet s.roundStandingsCache roundId else none) = none ∧
      ((∃ msg n, standingsLoopGo u roundId STANDINGS_MAX_PAGES 1 true = (.error msg, n) ∧
          fetchAllRoundStandings u s roundId past = (.error msg, s, n)) ∨
        (∃ all n, standingsLoopGo u roundId STANDINGS_MAX_PAGES 1 true = (.ok all, n) ∧
          ((past = true ∧ 0 < all.length ∧
              fetchAllRoundStandings u s roundId past =
                (.ok all,
                  { s with
                    roundStandingsCache :=
                      evictIfNeeded (jsMapSet s.roundStandingsCache roundId all)
                        ROUND_STANDINGS_CACHE_MAX_SIZE },
                  n)) ∨
            (¬(past = true ∧ 0 < all.length) ∧
              fetchAllRoundStandings u s roundId past = (.ok all, s, n)))))) := by
  cases hmiss : (if past = true then jsMapGet s.roundStandingsCache roundId else none) with
  | some cached =>
    left
    have hpast : past = true := by
      cases past
      · simp at hmiss
      · rfl
    rw [hpast] at hmiss
    simp only [if_true] at hmiss
    exact ⟨cached, hpast, hmiss, hpast ▸ fetchAllRoundStandings_hit hmiss⟩
  | none =>
    right
    refine ⟨rfl, ?_⟩
    rcases hl : standingsLoopGo u roundId STANDINGS_MAX_PAGES 1 true with ⟨res, n⟩
    cases res with
    | error msg =>
      exact Or.inl ⟨msg, n, rfl, fetchAllRoundStandings_miss_error hmiss hl⟩
    | ok all =>
      refine Or.inr ⟨all, n, rfl, ?_⟩
      by_cases hc : past = true ∧ 0 < all.length
      · exact Or.inl ⟨hc.1, hc.2, fetchAllRoundStandings_miss_ok_write hmiss hl hc⟩
      · exact Or.inr ⟨hc, fetchAllRoundStandings_miss_ok_nowrite hmiss hl hc⟩

/-- `fetchAllRoundStandings` leaves the state unchanged unless it returns a
non-empty list for a completed event. -/
theorem fetchAllRoundStandings_state_unchanged (u : Upstream) (s : ApiState) (roundId : Nat)
    (past : Bool)
    (h : ∀ l, (fetchAllRoundStandings u s roundId past).1 = .ok l →
      ¬(past = true ∧ 0 < l.length)) :
    (fetchAllRoundStandings u s roundId past).2.1 = s := by
  rcases fetchAllRoundStandings_cases u s roundId past with
    ⟨cached, hpast, _, heq⟩ | ⟨_, ⟨msg, n, _, heq⟩ | ⟨all, n, _, hbr⟩⟩
  · rw [heq]
  · rw [heq]
  · rcases hbr with ⟨hpast, hpos, heq⟩ | ⟨_, heq⟩
    · exact absurd ⟨hpast, hpos⟩ (h all (by rw [heq]))
    · rw [heq]

/-- The state is unchanged whenever the fetch ends in an error. -/
theorem fetchAllRoundStandings_state_of_error (u : Upstream) (s : ApiState) (roundId : Nat)
    (past : Bool) {msg : String}
    (h : (fetchAllRoundStandings u s roundId past).1 = .error msg) :
    (fetchAllRoundStandings u s roundId past).2.1 = s := by
  apply fetchAllRoundStandings_state_unchanged
  intro l hl
  rw [h] at hl
  cases hl

/-- The state is unchanged whenever the fetch returns an empty list. -/
theorem fetchAllRoundStandings_state_of_empty (u : Upstream) (s : ApiState) (roundId : Nat)
    (past : Bool) (h : (fetchAllRoundStandings u s roundId past).1 = .ok []) :
    (fetchAllRoundStandings u s roundId past).2.1 = s := by
  apply fetchAllRoundStandings_state_unchanged
  intro l hl
  rw [h] at hl
  cases hl
  simp

/-! ## The page-walking loop -/

theorem standingsLoopGo_false (u : Upstream) (roundId : Nat) (fuel page : Nat) :
    standingsLoopGo u roundId fuel page false = (.ok [], 0) := by
  cases fuel <;> simp [standingsLoopGo]

/-- Full specification of a successful run of the page-walking loop starting
with `hasMore = true`: it performs `n ≤ fuel` page requests (at least one
when any are allowed), returns the concatenation of the fetched pages, every
page before the last signalled another full page, and — unless it ran out of
fuel — the last page signalled the stop (no next page, or a short page). -/
theorem standingsLoopGo_ok_spec (u : Upstream) (roundId : Nat) :
    ∀ (fuel page : Nat) (l : List StandingEntry) (n : Nat),
      standingsLoopGo u roundId fuel page true = (.ok l, n) →
      n ≤ fuel ∧ (0 < fuel → 1 ≤ n) ∧ l = pagesConcat u roundId page n ∧
        (0 < n → n < fuel →
          ∃ pg, u.fetchStandingsPage roundId (page + n - 1) STANDINGS_PAGE_SIZE = .ok pg ∧
            (pg.next_page_number = none ∨ pg.results.length ≠ STANDINGS_PAGE_SIZE)) ∧
        (∀ i, i + 1 < n →
          ∃ pg, u.fetchStandingsPage roundId (page + i) STANDINGS_PAGE_SIZE = .ok pg ∧
            pg.next_page_number ≠ none ∧ pg.results.length = STANDINGS_PAGE_SIZE) := by
  intro fuel
  induction fuel with
  | zero =>
    intro page l n h
    simp only [standingsLoopGo] at h
    cases h
    refine ⟨Nat.le_refl 0, by omega, rfl, by omega, by omega⟩
  | succ fuel ih =>
    intro page l n h
    simp only [standingsLoopGo, if_true] at h
    split at h
    next msg heq => simp at h
    next response heq =>
      split at h
      next msg m heq2 => simp at h
      next rest m heq2 =>
        simp only [Prod.mk.injEq, Except.ok.injEq] at h
        obtain ⟨hl, hn⟩ := h
        subst hl
        subst hn
        cases hm : (response.next_page_number.isSome &&
            (response.results.length == STANDINGS_PAGE_SIZE)) with
        | false =>
          rw [hm, standingsLoopGo_false] at heq2
          simp only [Prod.mk.injEq, Except.ok.injEq] at heq2
          obtain ⟨hrest, hm0⟩ := heq2
          subst hrest
          subst hm0
          have hstop : response.next_page_number = none ∨
              response.results.length ≠ STANDINGS_PAGE_SIZE := by
            rcases Bool.and_eq_false_iff.mp hm with h1 | h1
            · exact Or.inl (Option.not_isSome_iff_eq_none.mp (by rw [h1]; simp))
            · exact Or.inr (by simpa using h1)
          refine ⟨by omega, fun _ => Nat.le_refl 1, ?_, ?_, ?_⟩
          · simp [pagesConcat, pageResults, heq]
          · intro _ _
            refine ⟨response, ?_, hstop⟩
            simpa using heq
          · intro i hi
            omega
        | true =>
          rw [hm] at heq2
          rcases ih (page + 1) rest m heq2 with ⟨hm1, hm2, hm3, hm4, hm5⟩
          have hfull : response.next_page_number ≠ none ∧
              response.results.length = STANDINGS_PAGE_SIZE := by
            have hand : response.next_page_number.isSome = true ∧
                response.results.length = STANDINGS_PAGE_SIZE := by simpa using hm
            exact ⟨Option.isSome_iff_ne_none.mp hand.1, hand.2⟩
          refine ⟨by omega, by omega, ?_, ?_, ?_⟩
          · simp [pagesConcat, pageResults, heq, hm3]
          · intro _ hlt
            have hfuel : 0 < fuel := by omega
            have hmpos : 1 ≤ m := hm2 hfuel
            rcases hm4 (by omega) (by omega) with ⟨pg, hpg, hpgstop⟩
            refine ⟨pg, ?_, hpgstop⟩
            have harith : page + 1 + m - 1 = page + (m + 1) - 1 := by omega
            rw [← harith]
            exact hpg
          · intro i hi
            cases i with
            | zero =>
              refine ⟨response, by simpa using heq, hfull⟩
            | succ j =>
              rcases hm5 j (by omega) with ⟨pg, hpg, hpgfull⟩
              refine ⟨pg, ?_, hpgfull⟩
              have harith : page + 1 + j = page + (j + 1) := by omega
              rw [← harith]
              exact hpg

theorem standingsLoopGo_requests_pos (u : Upstream) (roundId fuel page : Nat)
    (h : 0 < fuel) : 1 ≤ (standingsLoopGo u roundId fuel page true).2 := by
  cases fuel with
  | zero => omega
  | succ f =>
    simp only [standingsLoopGo, if_true]
    split
    · simp
    · split <;> simp

/-! ## Well-formedness preservation and cache monotonicity -/

theorem fetchEventDetails_roundCache (u : Upstream) (s : ApiState) (eventId : Nat) :
    (fetchEventDetails u s eventId).2.1.roundStandingsCache = s.roundStandingsCache := by
  cases hc : jsMapGet s.eventCache eventId with
  | some e => rw [fetchEventDetails_hit hc]
  | none =>
    cases hf : u.fetchEvent eventId with
    | error msg => rw [fetchEventDetails_miss_error hc hf]
    | ok e =>
      cases hcomp : isEventCompleted e with
      | false => rw [fetchEventDetails_miss_incomplete hc hf hcomp]
      | true => rw [fetchEventDetails_miss_completed hc hf hcomp]

theorem fetchAllRoundStandings_eventCache (u : Upstream) (s : ApiState) (roundId : Nat)
    (past : Bool) :
    (fetchAllRoundStandings u s roundId past).2.1.eventCache = s.eventCache := by
  rcases fetchAllRoundStandings_cases u s roundId past with
    ⟨cached, _, _, heq⟩ | ⟨_, ⟨msg, n, _, heq⟩ | ⟨all, n, _, ⟨_, _, heq⟩ | ⟨_, heq⟩⟩⟩ <;>
    rw [heq]

set_option maxRecDepth 10000 in
theorem stateWF_fetchEventDetails (u : Upstream) (s : ApiState) (eventId : Nat)
    (hwf : stateWF s) : stateWF (fetchEventDetails u s eventId).2.1 := by
  cases hc : jsMapGet s.eventCache eventId with
  | some e => rw [fetchEventDetails_hit hc]; exact hwf
  | none =>
    cases hf : u.fetchEvent eventId with
    | error msg => rw [fetchEventDetails_miss_error hc hf]; exact hwf
    | ok e =>
      cases hcomp : isEventCompleted e with
      | false => rw [fetchEventDetails_miss_incomplete hc hf hcomp]; exact hwf
      | true =>
        rw [fetchEventDetails_miss_completed hc hf hcomp]
        refine ⟨?_, hwf.2⟩
        have h1 := nodup_keys_jsMapSet eventId e hwf.1
        rw [evictIfNeeded_eq_drop _ h1]
        exact nodup_keys_drop _ h1

set_option maxRecDepth 10000 in
theorem stateWF_fetchAllRoundStandings (u : Upstream) (s : ApiState) (roundId : Nat)
    (past : Bool) (hwf : stateWF s) :
    stateWF (fetchAllRoundStandings u s roundId past).2.1 := by
  rcases fetchAllRoundStandings_cases u s roundId past with
    ⟨cached, _, _, heq⟩ | ⟨_, ⟨msg, n, _, heq⟩ | ⟨all, n, _, ⟨_, _, heq⟩ | ⟨_, heq⟩⟩⟩
  · rw [heq]; exact hwf
  · rw [heq]; exact hwf
  · rw [heq]
    refine ⟨hwf.1, ?_⟩
    have h1 := nodup_keys_jsMapSet roundId all hwf.2
    rw [evictIfNeeded_eq_drop _ h1]
    exact nodup_keys_drop _ h1
  · rw [heq]; exact hwf

/-- New event-cache entries come only from caching the completed event that
was just fetched. -/
theorem fetchEventDetails_eventCache_mono {u : Upstream} {s : ApiState} {eventId : Nat}
    (hwf : stateWF s) (k : Nat) (e : Event)
    (h : jsMapGet (fetchEventDetails u s eventId).2.1.eventCache k = some e) :
    jsMapGet s.eventCache k = some e ∨
      (k = eventId ∧ (fetchEventDetails u s eventId).1 = .ok e ∧
        isEventCompleted e = true) := by
  cases hc : jsMapGet s.eventCache eventId with
  | some e0 => rw [fetchEventDetails_hit hc] at h; exact Or.inl h
  | none =>
    cases hf : u.fetchEvent eventId with
    | error msg => rw [fetchEventDetails_miss_error hc hf] at h; exact Or.inl h
    | ok e0 =>
      cases hcomp : isEventCompleted e0 with
      | false => rw [fetchEventDetails_miss_incomplete hc hf hcomp] at h; exact Or.inl h
      | true =>
        rw [fetchEventDetails_miss_completed hc hf hcomp] at h
        simp only at h
        have hnd := nodup_keys_jsMapSet eventId e0 hwf.1
        rw [evictIfNeeded_eq_drop _ hnd] at h
        have h2 := jsMapGet_of_drop_eq_some hnd h
        by_cases hk : k = eventId
        · subst hk
          rw [jsMapGet_jsMapSet_self] at h2
          cases h2
          refine Or.inr ⟨rfl, ?_, hcomp⟩
          rw [fetchEventDetails_miss_completed hc hf hcomp]
        · rw [jsMapGet_jsMapSet_ne _ _ hk] at h2
          exact Or.inl h2

/-- New round-cache entries come only from caching a non-empty fetch made
with `isPastEvent = true` for the round that was just fetched. -/
theorem fetchAllRoundStandings_roundCache_mono (u : Upstream) (s : ApiState) (roundId : Nat)
    (past : Bool) (hwf : stateWF s) (k : Nat) (v : List StandingEntry)
    (h : jsMapGet (fetchAllRoundStandings u s roundId past).2.1.roundStandingsCache k = some v) :
    jsMapGet s.roundStandingsCache k = some v ∨
      (past = true ∧ k = roundId ∧ (fetchAllRoundStandings u s roundId past).1 = .ok v ∧
        0 < v.length) := by
  rcases fetchAllRoundStandings_cases u s roundId past with
    ⟨cached, _, _, heq⟩ | ⟨_, ⟨msg, n, _, heq⟩ | ⟨all, n, _, ⟨hpast, hpos, heq⟩ | ⟨_, heq⟩⟩⟩
  · rw [heq] at h; exact Or.inl h
  · rw [heq] at h; exact Or.inl h
  · rw [heq] at h
    simp only at h
    have hnd := nodup_keys_jsMapSet roundId all hwf.2
    rw [evictIfNeeded_eq_drop _ hnd] at h
    have h2 := jsMapGet_of_drop_eq_some hnd h
    by_cases hk : k = roundId
    · subst hk
      rw [jsMapGet_jsMapSet_self] at h2
      cases h2
      refine Or.inr ⟨hpast, rfl, ?_, hpos⟩
      rw [heq]
    · rw [jsMapGet_jsMapSet_ne _ _ hk] at h2
      exact Or.inl h2
  · rw [heq] at h; exact Or.inl h

/-! ## The candidate loop of getEventStandings -/

/-- The candidate loop returns the first non-empty fetch in candidate order,
computed against the state it started from: failed and empty candidates
leave the state untouched, so each candidate's outcome reads as a pure
function of the initial state. -/
theorem tryRounds_fst (u : Upstream) (event : Event) (isPast : Bool) :
    ∀ (rs : List RoundRef) (s : ApiState),
      (tryRounds u event isPast s rs).1 =
        (firstRoundStandings (fun rid => (fetchAllRoundStandings u s rid isPast).1) rs).map
          fun l => (event, l) := by
  intro rs
  induction rs with
  | nil => intro s; rfl
  | cons round rest ih =>
    intro s
    rcases hr : fetchAllRoundStandings u s round.id isPast with ⟨res, s1, m⟩
    have hr1 : (fetchAllRoundStandings u s round.id isPast).1 = res := by rw [hr]
    cases res with
    | ok standings =>
      by_cases hpos : 0 < standings.length
      · simp only [tryRounds, hr, hpos, if_true, firstRoundStandings, hr1]
        rfl
      · have hs : s1 = s := by
          have h0 := fetchAllRoundStandings_state_unchanged u s round.id isPast ?_
          · rw [hr] at h0; exact h0
          · intro l hl
            rw [hr1] at hl
            cases hl
            intro hcon
            exact hpos hcon.2
        simp only [tryRounds, hr, hpos, if_false, firstRoundStandings, hr1]
        rw [hs]
        exact ih s
    | error msg =>
      have hs : s1 = s := by
        have h0 := fetchAllRoundStandings_state_of_error u s round.id isPast hr1
        rw [hr] at h0; exact h0
      simp only [tryRounds, hr, firstRoundStandings, hr1]
      rw [hs]
      exact ih s

/-- Round-cache entries surviving the candidate loop either existed before
or were written by a fetch with `isPastEvent = true`. -/
theorem tryRounds_roundCache_mono (u : Upstream) (event : Event) (isPast : Bool) :
    ∀ (rs : List RoundRef) (s : ApiState), stateWF s → ∀ (k : Nat) (v : List StandingEntry),
      jsMapGet (tryRounds u event isPast s rs).2.roundStandingsCache k = some v →
      jsMapGet s.roundStandingsCache k = some v ∨ isPast = true := by
  intro rs
  induction rs with
  | nil => intro s _ k v h; exact Or.inl h
  | cons round rest ih =>
    intro s hwf k v h
    rcases hr : fetchAllRoundStandings u s round.id isPast with ⟨res, s1, m⟩
    have hwf1 : stateWF s1 := by
      have h9 := stateWF_fetchAllRoundStandings u s round.id isPast hwf
      rw [hr] at h9; exact h9
    cases res with
    | ok standings =>
      by_cases hpos : 0 < standings.length
      · simp only [tryRounds, hr, hpos, if_true] at h
        have h2 := fetchAllRoundStandings_roundCache_mono u s round.id isPast hwf k v
          (by rw [hr]; exact h)
        rcases h2 with h2 | h2
        · exact Or.inl h2
        · exact Or.inr h2.1
      · simp only [tryRounds, hr, hpos, if_false] at h
        have hs : s1 = s := by
          have h0 := fetchAllRoundStandings_state_unchanged u s round.id isPast ?_
          · rw [hr] at h0; exact h0
          · intro l hl
            rw [hr] at hl
            cases hl
            intro hcon
            exact hpos hcon.2
        rw [hs] at h
        exact ih s hwf k v h
    | error msg =>
      simp only [tryRounds, hr] at h
      have hs : s1 = s := by
        have h0 := fetchAllRoundStandings_state_of_error u s round.id isPast (by rw [hr])
        rw [hr] at h0; exact h0
      rw [hs] at h
      exact ih s hwf k v h

/-! ## Branch equations for getEventStandings -/

theorem getEventStandings_error {u : Upstream} {s : ApiState} {eventId : Nat} {msg : String}
    {s1 : ApiState} {m : Nat} (hfe : fetchEventDetails u s eventId = (.error msg, s1, m)) :
    getEventStandings u s eventId = (.error msg, s1) := by
  simp only [getEventStandings, hfe]

theorem getEventStandings_noPhases {u : Upstream} {s : ApiState} {eventId : Nat}
    {event : Event} {s1 : ApiState} {m : Nat}
    (hfe : fetchEventDetails u s eventId = (.ok event, s1, m))
    (hp : (event.tournament_phases.getD []).length = 0) :
    getEventStandings u s eventId = (.ok none, s1) := by
  simp [getEventStandings, hfe, hp]

theorem getEventStandings_phases {u : Upstream} {s : ApiState} {eventId : Nat}
    {event : Event} {s1 : ApiState} {m : Nat}
    (hfe : fetchEventDetails u s eventId = (.ok event, s1, m))
    (hp : ¬(event.tournament_phases.getD []).length = 0) (result : Option (Event × List StandingEntry))
    (s2 : ApiState)
    (ht : tryRounds u event (isEventCompleted event) s1
        (sortRounds (flattenRounds (event.tournament_phases.getD []))) = (result, s2)) :
    getEventStandings u s eventId = (.ok result, s2) := by
  simp [getEventStandings, hfe, hp, ht]

/-! ## Claim theorems -/

/-- C1: for every event whose fetched details are available, `getEventStandings`
flattens all rounds across phases tagged with their phase index, orders them by
phase index descending, then round number descending, then round id descending
(the sorted candidate list is ordered under `roundLE` and is a permutation of
the flattened rounds), and returns the event paired with the standings of the
first candidate whose fetch succeeds with a non-empty list — rounds whose fetch
throws are skipped, and when no candidate yields data (or the event has no
phases) the result is `none`, never an error. -/
theorem claim_resolution_order (u : Upstream) (s : ApiState) (eventId : Nat)
    (event : Event) (s1 : ApiState) (n : Nat)
    (hfe : fetchEventDetails u s eventId = (.ok event, s1, n)) :
    (getEventStandings u s eventId).1 =
      .ok ((firstRoundStandings
          (fun rid => (fetchAllRoundStandings u s1 rid (isEventCompleted event)).1)
          (sortRounds (flattenRounds (event.tournament_phases.getD [])))).map
        fun l => (event, l)) ∧
    List.Sorted roundLE (sortRounds (flattenRounds (event.tournament_phases.getD []))) ∧
    (sortRounds (flattenRounds (event.tournament_phases.getD []))).Perm
      (flattenRounds (event.tournament_phases.getD [])) := by
  refine ⟨?_, List.sorted_insertionSort roundLE _, List.perm_insertionSort roundLE _⟩
  by_cases hp : (event.tournament_phases.getD []).length = 0
  · have h0 : event.tournament_phases.getD [] = [] := List.length_eq_zero.mp hp
    rw [getEventStandings_noPhases hfe hp, h0]
    rfl
  · rcases ht : tryRounds u event (isEventCompleted event) s1
      (sortRounds (flattenRounds (event.tournament_phases.getD []))) with ⟨result, s2⟩
    rw [getEventStandings_phases hfe hp result s2 ht]
    have h1 := tryRounds_fst u event (isEventCompleted event)
      (sortRounds (flattenRounds (event.tournament_phases.getD []))) s1
    simp only [ht] at h1
    rw [h1]

/-- Witness for C1 at a concrete completed event with one phase and round 7,
whose first standings page is non-empty. -/
theorem claim_resolution_order_witness :
    fetchEventDetails sampleUpstream clearCaches 20 =
      (.ok sampleEvent, ⟨[(20, sampleEvent)], []⟩, 1) ∧
    (getEventStandings sampleUpstream clearCaches 20).1 =
      .ok ((firstRoundStandings
          (fun rid =>
            (fetchAllRoundStandings sampleUpstream ⟨[(20, sampleEvent)], []⟩ rid
              (isEventCompleted sampleEvent)).1)
          (sortRounds (flattenRounds (sampleEvent.tournament_phases.getD [])))).map
        fun l => (sampleEvent, l)) :=
  ⟨by decide,
    (claim_resolution_order sampleUpstream clearCaches 20 sampleEvent
      ⟨[(20, sampleEvent)], []⟩ 1 (by decide)).1⟩

set_option maxRecDepth 10000 in
/-- C2: `evictIfNeeded` removes exactly the oldest-inserted entries (a prefix
in insertion order) until the size is back at the limit; inserting a fresh key
into a cache already at its maximum evicts exactly the single oldest entry and
leaves the size at the maximum; and both `fetchEventDetails` and
`fetchAllRoundStandings` keep the event cache within 500 entries and the
round-standings cache within 1000 entries. -/
theorem claim_cache_bounds :
    (∀ (V : Type) (m : List (Nat × V)) (maxSize : Nat), (m.map Prod.fst).Nodup →
      evictIfNeeded m maxSize = m.drop (m.length - maxSize) ∧
        (evictIfNeeded m maxSize).length = min m.length maxSize) ∧
    (∀ (V : Type) (m : List (Nat × V)) (k : Nat) (v : V) (maxSize : Nat),
      (m.map Prod.fst).Nodup → m.length = maxSize → 0 < maxSize → jsMapGet m k = none →
      evictIfNeeded (jsMapSet m k v) maxSize = m.drop 1 ++ [(k, v)] ∧
        (evictIfNeeded (jsMapSet m k v) maxSize).length = maxSize) ∧
    (∀ (u : Upstream) (s : ApiState) (eventId : Nat), stateWF s →
      s.eventCache.length ≤ EVENT_CACHE_MAX_SIZE →
      s.roundStandingsCache.length ≤ ROUND_STANDINGS_CACHE_MAX_SIZE →
      (fetchEventDetails u s eventId).2.1.eventCache.length ≤ EVENT_CACHE_MAX_SIZE ∧
        (fetchEventDetails u s eventId).2.1.roundStandingsCache.length ≤
          ROUND_STANDINGS_CACHE_MAX_SIZE) ∧
    (∀ (u : Upstream) (s : ApiState) (roundId : Nat) (past : Bool), stateWF s →
      s.eventCache.length ≤ EVENT_CACHE_MAX_SIZE →
      s.roundStandingsCache.length ≤ ROUND_STANDINGS_CACHE_MAX_SIZE →
      (fetchAllRoundStandings u s roundId past).2.1.eventCache.length ≤ EVENT_CACHE_MAX_SIZE ∧
        (fetchAllRoundStandings u s roundId past).2.1.roundStandingsCache.length ≤
          ROUND_STANDINGS_CACHE_MAX_SIZE) := by
  refine ⟨?_, ?_, ?_, ?_⟩
  · intro V m maxSize hnd
    exact ⟨evictIfNeeded_eq_drop maxSize hnd, length_evictIfNeeded maxSize hnd⟩
  · intro V m k v maxSize hnd hlen hpos hget
    have hset := jsMapSet_eq_append v hget
    have hnd2 := nodup_keys_jsMapSet k v hnd
    have hdrop := evictIfNeeded_eq_drop maxSize hnd2
    have hlen2 : (jsMapSet m k v).length = maxSize + 1 := by
      rw [hset, List.length_append, hlen]
      rfl
    constructor
    · rw [hdrop, hlen2, (by omega : maxSize + 1 - maxSize = 1), hset,
        List.drop_append_of_le_length (by omega : 1 ≤ m.length)]
    · rw [hdrop, List.length_drop, hlen2]
      omega
  · intro u s eventId hwf hb1 hb2
    constructor
    · cases hc : jsMapGet s.eventCache eventId with
      | some e => rw [fetchEventDetails_hit hc]; exact hb1
      | none =>
        cases hf : u.fetchEvent eventId with
        | error msg => rw [fetchEventDetails_miss_error hc hf]; exact hb1
        | ok e =>
          cases hcomp : isEventCompleted e with
          | false => rw [fetchEventDetails_miss_incomplete hc hf hcomp]; exact hb1
          | true =>
            rw [fetchEventDetails_miss_completed hc hf hcomp]
            show (evictIfNeeded (jsMapSet s.eventCache eventId e)
              EVENT_CACHE_MAX_SIZE).length ≤ EVENT_CACHE_MAX_SIZE
            rw [length_evictIfNeeded _ (nodup_keys_jsMapSet eventId e hwf.1)]
            exact Nat.min_le_right _ _
    · rw [fetchEventDetails_roundCache]
      exact hb2
  · intro u s roundId past hwf hb1 hb2
    constructor
    · rw [fetchAllRoundStandings_eventCache]
      exact hb1
    · rcases fetchAllRoundStandings_cases u s roundId past with
        ⟨cached, _, _, heq⟩ | ⟨_, ⟨msg, n0, _, heq⟩ | ⟨all, n0, _, ⟨_, _, heq⟩ | ⟨_, heq⟩⟩⟩
      · rw [heq]; exact hb2
      · rw [heq]; exact hb2
      · rw [heq]
        show (evictIfNeeded (jsMapSet s.roundStandingsCache roundId all)
          ROUND_STANDINGS_CACHE_MAX_SIZE).length ≤ ROUND_STANDINGS_CACHE_MAX_SIZE
        rw [length_evictIfNeeded _ (nodup_keys_jsMapSet roundId all hwf.2)]
        exact Nat.min_le_right _ _
      · rw [heq]; exact hb2

/-- Witness for C2: inserting a fresh key into a two-entry cache with maximum
size two evicts exactly the oldest entry. -/
theorem claim_cache_bounds_witness :
    (([(1, 10), (2, 20)] : List (Nat × Nat)).map Prod.fst).Nodup ∧
    jsMapGet ([(1, 10), (2, 20)] : List (Nat × Nat)) 3 = none ∧
    evictIfNeeded (jsMapSet ([(1, 10), (2, 20)] : List (Nat × Nat)) 3 30) 2 =
      ([(1, 10), (2, 20)] : List (Nat × Nat)).drop 1 ++ [(3, 30)] :=
  ⟨by decide, by decide,
    (claim_cache_bounds.2.1 Nat [(1, 10), (2, 20)] 3 30 2 (by decide) (by decide) (by decide)
      (by decide)).1⟩

/-- C3: an event is written into the event cache only when `isEventCompleted`
holds for the fetched event; round standings are written into the round cache
only by calls made with `isPastEvent = true`, which `getEventStandings` sets
exactly when the owning fetched event is judged complete; and an event whose
fetch yields a non-completed event is never present in the event cache no
matter how many times it is fetched (the state is unchanged entirely). -/
theorem claim_completed_only_caching :
    (∀ (u : Upstream) (s : ApiState) (eventId : Nat), stateWF s → ∀ (k : Nat) (e : Event),
      jsMapGet (fetchEventDetails u s eventId).2.1.eventCache k = some e →
      jsMapGet s.eventCache k = some e ∨
        (k = eventId ∧ (fetchEventDetails u s eventId).1 = .ok e ∧
          isEventCompleted e = true)) ∧
    (∀ (u : Upstream) (s : ApiState) (roundId : Nat) (past : Bool), stateWF s →
      ∀ (k : Nat) (v : List StandingEntry),
      jsMapGet (fetchAllRoundStandings u s roundId past).2.1.roundStandingsCache k = some v →
      jsMapGet s.roundStandingsCache k = some v ∨ past = true) ∧
    (∀ (u : Upstream) (s : ApiState) (eventId : Nat), stateWF s →
      ∀ (k : Nat) (v : List StandingEntry),
      jsMapGet (getEventStandings u s eventId).2.roundStandingsCache k = some v →
      jsMapGet s.roundStandingsCache k = some v ∨
        ∃ event, (fetchEventDetails u s eventId).1 = .ok event ∧
          isEventCompleted event = true) ∧
    (∀ (u : Upstream) (s : ApiState) (eventId : Nat) (e : Event) (n : Nat),
      u.fetchEvent eventId = .ok e → isEventCompleted e = false →
      jsMapGet s.eventCache eventId = none → repeatFetchEvent u eventId n s = s) := by
  refine ⟨?_, ?_, ?_, ?_⟩
  · intro u s eventId hwf k e h
    exact fetchEventDetails_eventCache_mono hwf k e h
  · intro u s roundId past hwf k v h
    rcases fetchAllRoundStandings_roundCache_mono u s roundId past hwf k v h with h2 | h2
    · exact Or.inl h2
    · exact Or.inr h2.1
  · intro u s eventId hwf k v h
    rcases hfe : fetchEventDetails u s eventId with ⟨res, s1, m⟩
    have hrc : s1.roundStandingsCache = s.roundStandingsCache := by
      have h0 := fetchEventDetails_roundCache u s eventId
      rw [hfe] at h0
      exact h0
    have hwf1 : stateWF s1 := by
      have h0 := stateWF_fetchEventDetails u s eventId hwf
      rw [hfe] at h0
      exact h0
    cases res with
    | error msg =>
      simp only [getEventStandings_error hfe] at h
      exact Or.inl (hrc ▸ h)
    | ok event =>
      by_cases hp : (event.tournament_phases.getD []).length = 0
      · simp only [getEventStandings_noPhases hfe hp] at h
        exact Or.inl (hrc ▸ h)
      · rcases ht : tryRounds u event (isEventCompleted event) s1
          (sortRounds (flattenRounds (event.tournament_phases.getD []))) with ⟨result, s2⟩
        simp only [getEventStandings_phases hfe hp result s2 ht] at h
        have h2 := tryRounds_roundCache_mono u event (isEventCompleted event) _ s1 hwf1 k v
          (by rw [ht]; exact h)
        rcases h2 with h2 | h2
        · exact Or.inl (hrc ▸ h2)
        · exact Or.inr ⟨event, rfl, h2⟩
  · intro u s eventId e n hf hinc hget
    induction n with
    | zero => rfl
    | succ n ih =>
      have hstep : (fetchEventDetails u s eventId).2.1 = s := by
        rw [fetchEventDetails_miss_incomplete hget hf hinc]
      show repeatFetchEvent u eventId n (fetchEventDetails u s eventId).2.1 = s
      rw [hstep]
      exact ih

/-- Witness for C3: the upcoming event 21 is fetched three times and the
caches remain empty. -/
theorem claim_completed_only_caching_witness :
    sampleUpstream.fetchEvent 21 = .ok upcomingEvent ∧
    isEventCompleted upcomingEvent = false ∧
    jsMapGet clearCaches.eventCache 21 = none ∧
    repeatFetchEvent sampleUpstream 21 3 clearCaches = clearCaches :=
  ⟨by decide, by decide, by decide,
    claim_completed_only_caching.2.2.2 sampleUpstream clearCaches 21 upcomingEvent 3
      (by decide) (by decide) (by decide)⟩

set_option maxRecDepth 10000 in
/-- C8: if `fetchEventDetails` returns an event judged complete, an immediate
second call for the same id is served from the event cache — it returns the
same event and the same state with zero upstream requests — and the first
call made at most one request, exactly one when the id was not cached. -/
theorem claim_completed_event_cached (u : Upstream) (s : ApiState) (eventId : Nat)
    (event : Event) (s1 : ApiState) (n1 : Nat) (hwf : stateWF s)
    (h : fetchEventDetails u s eventId = (.ok event, s1, n1))
    (hc : isEventCompleted event = true) :
    fetchEventDetails u s1 eventId = (.ok event, s1, 0) ∧ n1 ≤ 1 ∧
      (jsMapGet s.eventCache eventId = none → n1 = 1) := by
  cases hget : jsMapGet s.eventCache eventId with
  | some cached =>
    rw [fetchEventDetails_hit hget] at h
    simp only [Prod.mk.injEq, Except.ok.injEq] at h
    obtain ⟨he, hs, hn⟩ := h
    refine ⟨?_, by omega, ?_⟩
    · rw [← hs, ← he]
      exact fetchEventDetails_hit hget
    · intro habs
      exact absurd habs (by simp)
  | none =>
    cases hf : u.fetchEvent eventId with
    | error msg =>
      rw [fetchEventDetails_miss_error hget hf] at h
      simp at h
    | ok e0 =>
      cases hcomp : isEventCompleted e0 with
      | false =>
        rw [fetchEventDetails_miss_incomplete hget hf hcomp] at h
        simp only [Prod.mk.injEq, Except.ok.injEq] at h
        obtain ⟨he, hs, hn⟩ := h
        subst he
        rw [hc] at hcomp
        cases hcomp
      | true =>
        rw [fetchEventDetails_miss_completed hget hf hcomp] at h
        simp only [Prod.mk.injEq, Except.ok.injEq] at h
        obtain ⟨he, hs, hn⟩ := h
        have hnd := nodup_keys_jsMapSet eventId e0 hwf.1
        have hset := jsMapSet_eq_append e0 hget
        have hdle : (jsMapSet s.eventCache eventId e0).length - EVENT_CACHE_MAX_SIZE ≤
            s.eventCache.length := by
          have h3 := length_jsMapSet_le s.eventCache eventId e0
          have hmax : 0 < EVENT_CACHE_MAX_SIZE := by decide
          omega
        have hcache : jsMapGet s1.eventCache eventId = some event := by
          rw [← hs, ← he]
          show jsMapGet (evictIfNeeded (jsMapSet s.eventCache eventId e0)
            EVENT_CACHE_MAX_SIZE) eventId = some e0
          rw [evictIfNeeded_eq_drop _ hnd]
          conv_lhs => rw [hset]
          rw [List.drop_append_of_le_length (by rw [hset] at hdle; simpa using hdle)]
          rw [jsMapGet_append]
          rw [jsMapGet_drop_eq_none _ hget]
          simp [jsMapGet]
        exact ⟨fetchEventDetails_hit hcache, by omega, fun _ => by omega⟩

/-- Witness for C8 at the concrete completed event 20: the second fetch is a
cache hit with zero upstream requests. -/
theorem claim_completed_event_cached_witness :
    stateWF clearCaches ∧
    fetchEventDetails sampleUpstream clearCaches 20 =
      (.ok sampleEvent, ⟨[(20, sampleEvent)], []⟩, 1) ∧
    isEventCompleted sampleEvent = true ∧
    fetchEventDetails sampleUpstream ⟨[(20, sampleEvent)], []⟩ 20 =
      (.ok sampleEvent, ⟨[(20, sampleEvent)], []⟩, 0) :=
  ⟨⟨by simp [clearCaches], by simp [clearCaches]⟩, by decide, by decide,
    (claim_completed_event_cached sampleUpstream clearCaches 20 sampleEvent
      ⟨[(20, sampleEvent)], []⟩ 1 ⟨by simp [clearCaches], by simp [clearCaches]⟩
      (by decide) (by decide)).1⟩

/-- C9 counterexample: the page loop does not stop only on a null next-page
number or the 50-page cap — a page carrying fewer than 100 results stops it
too. Round 7's first page holds one entry yet advertises page 2; the loop
stops after a single request (below the cap), and page 2's entry is never
returned. -/
theorem claim_standings_pagination_counterexample :
    fetchAllRoundStandings sampleUpstream clearCaches 7 false =
      (.ok [sampleEntryA], clearCaches, 1) ∧
    sampleUpstream.fetchStandingsPage 7 1 STANDINGS_PAGE_SIZE =
      .ok ⟨[sampleEntryA], some 2⟩ ∧
    1 < STANDINGS_MAX_PAGES ∧
    pagesConcat sampleUpstream 7 1 2 = [sampleEntryA, sampleEntryB] :=
  ⟨by decide, by decide, by decide, by decide⟩

/-- C9 (amended): when the round is not served from cache, the page loop
performs between 1 and 50 page requests of fixed size 100, returns the
concatenation of all fetched pages, walks successive pages (every page before
the last was full and advertised a next page), and stops at the cap or at the
first page that signals no next page or returns fewer than 100 results. -/
theorem claim_standings_pagination_amended (u : Upstream) (s : ApiState) (roundId : Nat)
    (past : Bool) (l : List StandingEntry) (s1 : ApiState) (n : Nat)
    (hmiss : jsMapGet s.roundStandingsCache roundId = none)
    (h : fetchAllRoundStandings u s roundId past = (.ok l, s1, n)) :
    1 ≤ n ∧ n ≤ STANDINGS_MAX_PAGES ∧ l = pagesConcat u roundId 1 n ∧
      (n < STANDINGS_MAX_PAGES →
        ∃ pg, u.fetchStandingsPage roundId n STANDINGS_PAGE_SIZE = .ok pg ∧
          (pg.next_page_number = none ∨ pg.results.length ≠ STANDINGS_PAGE_SIZE)) ∧
      (∀ i, 1 ≤ i → i < n →
        ∃ pg, u.fetchStandingsPage roundId i STANDINGS_PAGE_SIZE = .ok pg ∧
          pg.next_page_number ≠ none ∧ pg.results.length = STANDINGS_PAGE_SIZE) := by
  rcases fetchAllRoundStandings_cases u s roundId past with
    ⟨cached, hpast, hget, heq⟩ | ⟨_, ⟨msg, n0, hl, heq⟩ | ⟨all, n0, hl, hbr⟩⟩
  · rw [hmiss] at hget
    cases hget
  · rw [heq] at h
    simp at h
  · have hall : all = l ∧ n0 = n := by
      rcases hbr with ⟨_, _, heq⟩ | ⟨_, heq⟩ <;>
      · rw [heq] at h
        simp only [Prod.mk.injEq, Except.ok.injEq] at h
        exact ⟨h.1, h.2.2⟩
    obtain ⟨he1, he2⟩ := hall
    subst he1
    subst he2
    rcases standingsLoopGo_ok_spec u roundId STANDINGS_MAX_PAGES 1 all n0 hl with
      ⟨h1, h2, h3, h4, h5⟩
    have hpos : 1 ≤ n0 := h2 (by decide)
    refine ⟨hpos, h1, h3, ?_, ?_⟩
    · intro hlt
      rcases h4 (by omega) hlt with ⟨pg, hpg, hstop⟩
      have harith : 1 + n0 - 1 = n0 := by omega
      rw [harith] at hpg
      exact ⟨pg, hpg, hstop⟩
    · intro i hi1 hi2
      rcases h5 (i - 1) (by omega) with ⟨pg, hpg, hfull⟩
      have harith : 1 + (i - 1) = i := by omega
      rw [harith] at hpg
      exact ⟨pg, hpg, hfull⟩

/-- Witness for C9 at round 7 of the concrete upstream: one page request,
below the cap, returning exactly page 1's results. -/
theorem claim_standings_pagination_amended_witness :
    jsMapGet clearCaches.roundStandingsCache 7 = none ∧
    fetchAllRoundStandings sampleUpstream clearCaches 7 false =
      (.ok [sampleEntryA], clearCaches, 1) ∧
    (1 ≤ 1 ∧ 1 ≤ STANDINGS_MAX_PAGES ∧
      [sampleEntryA] = pagesConcat sampleUpstream 7 1 1 ∧
      (1 < STANDINGS_MAX_PAGES →
        ∃ pg, sampleUpstream.fetchStandingsPage 7 1 STANDINGS_PAGE_SIZE = .ok pg ∧
          (pg.next_page_number = none ∨ pg.results.length ≠ STANDINGS_PAGE_SIZE)) ∧
      (∀ i, 1 ≤ i → i < 1 →
        ∃ pg, sampleUpstream.fetchStandingsPage 7 i STANDINGS_PAGE_SIZE = .ok pg ∧
          pg.next_page_number ≠ none ∧ pg.results.length = STANDINGS_PAGE_SIZE)) :=
  ⟨by decide, by decide,
    claim_standings_pagination_amended sampleUpstream clearCaches 7 false [sampleEntryA]
      clearCaches 1 (by decide) (by decide)⟩

/-- C10: `fetchAllRoundStandings` writes the round cache only when called
with `isPastEvent = true` and the fetched list is non-empty; an empty result
leaves the state unchanged — so a repeated call behaves identically, hitting
the upstream again — and any call whose round is uncached performs at least
one upstream page request. -/
theorem claim_round_cache_write_policy (u : Upstream) (s : ApiState) (roundId : Nat)
    (past : Bool) (hwf : stateWF s) :
    ((fetchAllRoundStandings u s roundId past).1 = .ok [] →
      (fetchAllRoundStandings u s roundId past).2.1 = s ∧
        fetchAllRoundStandings u (fetchAllRoundStandings u s roundId past).2.1 roundId past =
          fetchAllRoundStandings u s roundId past) ∧
    (∀ (k : Nat) (v : List StandingEntry),
      jsMapGet (fetchAllRoundStandings u s roundId past).2.1.roundStandingsCache k = some v →
      jsMapGet s.roundStandingsCache k = some v ∨
        (past = true ∧ k = roundId ∧ (fetchAllRoundStandings u s roundId past).1 = .ok v ∧
          0 < v.length)) ∧
    (jsMapGet s.roundStandingsCache roundId = none →
      1 ≤ (fetchAllRoundStandings u s roundId past).2.2) := by
  refine ⟨?_, ?_, ?_⟩
  · intro hempty
    have hs := fetchAllRoundStandings_state_of_empty u s roundId past hempty
    exact ⟨hs, by rw [hs]⟩
  · intro k v h
    exact fetchAllRoundStandings_roundCache_mono u s roundId past hwf k v h
  · intro hget
    have hpos := standingsLoopGo_requests_pos u roundId STANDINGS_MAX_PAGES 1 (by decide)
    rcases fetchAllRoundStandings_cases u s roundId past with
      ⟨cached, hpast, hget2, heq⟩ | ⟨_, ⟨msg, n0, hl, heq⟩ | ⟨all, n0, hl, hbr⟩⟩
    · rw [hget] at hget2
      cases hget2
    · rw [heq]
      rw [hl] at hpos
      exact hpos
    · rcases hbr with ⟨_, _, heq⟩ | ⟨_, heq⟩ <;>
      · rw [heq]
        rw [hl] at hpos
        exact hpos

/-! ## Leaderboard aggregation lemmas (claim C7) -/

theorem aggregateStandings_eq_foldl (eventStandings : List (Event × List StandingEntry)) :
    aggregateStandings eventStandings =
      (allIndexedEntries eventStandings).foldl aggApply [] := by
  suffices h : ∀ agg, eventStandings.foldl (fun agg p => processStandings agg p.2) agg =
      (eventStandings.flatMap fun p => p.2.enum).foldl aggApply agg from h []
  induction eventStandings with
  | nil => intro agg; rfl
  | cons p rest ih =>
    intro agg
    simp only [List.foldl_cons, List.flatMap_cons, List.foldl_append]
    exact ih (processStandings agg p.2)

/-- Effect of one aggregation step on its own key. -/
theorem aggApply_key_fields (agg : List (String × AggRec)) (q : Nat × StandingEntry)
    (hk : standingPlayerKey q.2 ≠ "—") :
    ∃ r, jsMapGet (aggApply agg q) (standingPlayerKey q.2) = some r ∧
      ((jsMapGet agg (standingPlayerKey q.2) = none ∧
          r.wins = (standingWinsLosses q.2).1 ∧ r.losses = (standingWinsLosses q.2).2 ∧
          r.eventsPlayed = 1 ∧ r.placements = [standingPlacement q.2 q.1]) ∨
        (∃ r0, jsMapGet agg (standingPlayerKey q.2) = some r0 ∧
          r.wins = r0.wins + (standingWinsLosses q.2).1 ∧
          r.losses = r0.losses + (standingWinsLosses q.2).2 ∧
          r.eventsPlayed = r0.eventsPlayed + 1 ∧
          r.placements = r0.placements ++ [standingPlacement q.2 q.1])) := by
  simp only [aggApply, hk, if_neg, not_false_iff]
  cases hget : jsMapGet agg (standingPlayerKey q.2) with
  | none =>
    refine ⟨_, jsMapGet_jsMapSet_self _ _ _, Or.inl ⟨rfl, ?_, ?_, ?_, ?_⟩⟩ <;> simp
  | some r0 =>
    refine ⟨_, jsMapGet_jsMapSet_self _ _ _, Or.inr ⟨r0, rfl, ?_⟩⟩
    by_cases hues : (q.2.user_event_status_best_identifier.isSome &&
        !r0.hasUserEventStatus) = true <;>
      simp [hues]

/-- One aggregation step leaves every other key's record unchanged. -/
theorem aggApply_other (agg : List (String × AggRec)) (q : Nat × StandingEntry) (k : String)
    (hk : standingPlayerKey q.2 ≠ k) :
    jsMapGet (aggApply agg q) k = jsMapGet agg k := by
  by_cases hdash : standingPlayerKey q.2 = "—"
  · simp [aggApply, hdash]
  · simp only [aggApply, hdash, if_neg, not_false_iff]
    exact jsMapGet_jsMapSet_ne _ _ (Ne.symm hk)

/-- Folding the aggregation over entries, starting from a key that is already
present: the accumulator's totals grow by exactly the matching entries'
contributions. -/
theorem aggFold_some (k : String) (hk : k ≠ "—") :
    ∀ (L : List (Nat × StandingEntry)) (agg : List (String × AggRec)) (r0 : AggRec),
      jsMapGet agg k = some r0 →
      ∃ r, jsMapGet (L.foldl aggApply agg) k = some r ∧
        r.wins = r0.wins + ((L.filter fun q => standingPlayerKey q.2 = k).map
          fun q => (standingWinsLosses q.2).1).sum ∧
        r.losses = r0.losses + ((L.filter fun q => standingPlayerKey q.2 = k).map
          fun q => (standingWinsLosses q.2).2).sum ∧
        r.eventsPlayed = r0.eventsPlayed +
          (L.filter fun q => standingPlayerKey q.2 = k).length ∧
        r.placements = r0.placements ++ (L.filter fun q => standingPlayerKey q.2 = k).map
          fun q => standingPlacement q.2 q.1 := by
  intro L
  induction L with
  | nil =>
    intro agg r0 h
    exact ⟨r0, h, by simp, by simp, by simp, by simp⟩
  | cons q L ih =>
    intro agg r0 h
    by_cases hq : standingPlayerKey q.2 = k
    · have hkq : standingPlayerKey q.2 ≠ "—" := by rw [hq]; exact hk
      rcases aggApply_key_fields agg q hkq with ⟨r1, hget1, hcase⟩
      rw [hq] at hget1
      rcases hcase with ⟨hnone, _⟩ | ⟨r0x, hsome, hw1, hl1, he1, hp1⟩
      · rw [hq] at hnone
        rw [h] at hnone
        cases hnone
      · rw [hq] at hsome
        rw [h] at hsome
        simp only [Option.some.injEq] at hsome
        subst hsome
        rcases ih (aggApply agg q) r1 hget1 with ⟨r, hget, hw, hl, he, hp⟩
        refine ⟨r, by simpa using hget, ?_, ?_, ?_, ?_⟩ <;>
          simp only [List.filter_cons, hq, decide_True, if_pos, List.map_cons,
            List.sum_cons, List.length_cons] <;>
          [skip; skip; skip; skip]
        · rw [hw, hw1]; omega
        · rw [hl, hl1]; omega
        · rw [he, he1]; omega
        · rw [hp, hp1]; simp
    · have hstep := aggApply_other agg q k hq
      rcases ih (aggApply agg q) r0 (by rw [hstep]; exact h) with ⟨r, hget, hw, hl, he, hp⟩
      refine ⟨r, by simpa using hget, ?_, ?_, ?_, ?_⟩ <;>
        simp only [List.filter_cons, hq, decide_False, if_neg, Bool.false_eq_true,
          not_false_iff] <;>
        assumption

/-- Folding the aggregation over entries, starting from an absent key:
either no entry matches and the key stays absent, or the key's record holds
exactly the matching entries' totals. -/
theorem aggFold_none (k : String) (hk : k ≠ "—") :
    ∀ (L : List (Nat × StandingEntry)) (agg : List (String × AggRec)),
      jsMapGet agg k = none →
      ((L.filter fun q => standingPlayerKey q.2 = k) = [] ∧
        jsMapGet (L.foldl aggApply agg) k = none) ∨
      (∃ r, jsMapGet (L.foldl aggApply agg) k = some r ∧
        r.wins = ((L.filter fun q => standingPlayerKey q.2 = k).map
          fun q => (standingWinsLosses q.2).1).sum ∧
        r.losses = ((L.filter fun q => standingPlayerKey q.2 = k).map
          fun q => (standingWinsLosses q.2).2).sum ∧
        r.eventsPlayed = (L.filter fun q => standingPlayerKey q.2 = k).length ∧
        r.placements = (L.filter fun q => standingPlayerKey q.2 = k).map
          fun q => standingPlacement q.2 q.1) := by
  intro L
  induction L with
  | nil => intro agg h; exact Or.inl ⟨rfl, h⟩
  | cons q L ih =>
    intro agg h
    by_cases hq : standingPlayerKey q.2 = k
    · have hkq : standingPlayerKey q.2 ≠ "—" := by rw [hq]; exact hk
      rcases aggApply_key_fields agg q hkq with ⟨r1, hget1, hcase⟩
      rw [hq] at hget1
      rcases hcase with ⟨_, hw1, hl1, he1, hp1⟩ | ⟨r0x, hsome, _⟩
      · rcases aggFold_some k hk L (aggApply agg q) r1 hget1 with ⟨r, hget, hw, hl, he, hp⟩
        refine Or.inr ⟨r, by simpa using hget, ?_, ?_, ?_, ?_⟩ <;>
          simp only [List.filter_cons, hq, decide_True, if_pos, List.map_cons,
            List.sum_cons, List.length_cons]
        · rw [hw, hw1]
        · rw [hl, hl1]
        · rw [he, he1]; omega
        · rw [hp, hp1]; simp
      · rw [hq] at hsome
        rw [h] at hsome
        cases hsome
    · have hstep := aggApply_other agg q k hq
      rcases ih (aggApply agg q) (by rw [hstep]; exact h) with ⟨hfil, hnone⟩ | ⟨r, hget, hrest⟩
      · refine Or.inl ⟨?_, by simpa using hnone⟩
        simp only [List.filter_cons, hq, decide_False, if_neg, Bool.false_eq_true,
          not_false_iff]
        exact hfil
      · refine Or.inr ⟨r, by simpa using hget, ?_⟩
        simpa only [List.filter_cons, hq, decide_False, if_neg, Bool.false_eq_true,
          not_false_iff] using hrest

theorem foldl_min_le (t : List Nat) : ∀ a : Nat,
    t.foldl Nat.min a ≤ a ∧ ∀ p ∈ t, t.foldl Nat.min a ≤ p := by
  induction t with
  | nil => intro a; simp
  | cons b t ih =>
    intro a
    have h := ih (Nat.min a b)
    refine ⟨le_trans h.1 (Nat.min_le_left a b), ?_⟩
    intro p hp
    rcases List.mem_cons.mp hp with hp | hp
    · subst hp
      exact le_trans h.1 (Nat.min_le_right a _)
    · exact h.2 p hp

theorem foldl_min_mem (t : List Nat) : ∀ a : Nat,
    t.foldl Nat.min a = a ∨ t.foldl Nat.min a ∈ t := by
  induction t with
  | nil => intro a; simp
  | cons b t ih =>
    intro a
    rcases ih (Nat.min a b) with h | h
    · have hchoice : Nat.min a b = a ∨ Nat.min a b = b := by
        unfold Nat.min
        exact min_choice a b
      rcases hchoice with hm | hm
      · left
        show List.foldl Nat.min (Nat.min a b) t = a
        rw [h, hm]
      · right
        show List.foldl Nat.min (Nat.min a b) t ∈ b :: t
        rw [h, hm]
        exact List.mem_cons_self b t
    · exact Or.inr (List.mem_cons_of_mem _ h)

theorem listMin_spec (l : List Nat) (h : l ≠ []) :
    listMin l ∈ l ∧ ∀ p ∈ l, listMin l ≤ p := by
  cases l with
  | nil => exact absurd rfl h
  | cons a t =>
    constructor
    · rcases foldl_min_mem t a with hm | hm
      · rw [listMin, hm]
        exact List.mem_cons_self a t
      · exact List.mem_cons_of_mem _ (by simpa [listMin] using hm)
    · intro p hp
      rcases List.mem_cons.mp hp with hp | hp
      · subst hp
        exact (foldl_min_le t p).1
      · exact (foldl_min_le t a).2 p hp

/-- C7: for every usable player identity, the aggregation loop's record holds
exactly the sums of per-entry wins and losses (explicit numeric fields when
both are present, else the first two dash-separated integers of the record
string, else zeros), one events-played increment and one appended placement
per contributing entry; `firstPlaceFinishes` counts the placements equal to 1
and `bestPlacement` is the minimum of the placements list; and identity 42
with records `"3-0"` and `"2-1"` across two events aggregates to five wins,
one loss and two events played. -/
theorem claim_leaderboard_aggregation :
    (∀ (eventStandings : List (Event × List StandingEntry)) (k : String), k ≠ "—" →
      (∀ r, jsMapGet (aggregateStandings eventStandings) k = some r →
        r.wins = ((keyEntries eventStandings k).map fun q => (standingWinsLosses q.2).1).sum ∧
        r.losses = ((keyEntries eventStandings k).map fun q => (standingWinsLosses q.2).2).sum ∧
        r.eventsPlayed = (keyEntries eventStandings k).length ∧
        r.placements = (keyEntries eventStandings k).map fun q => standingPlacement q.2 q.1) ∧
      (jsMapGet (aggregateStandings eventStandings) k = none →
        keyEntries eventStandings k = [])) ∧
    (∀ r : AggRec, (toStats r).firstPlaceFinishes =
        (r.placements.filter fun p => p = 1).length ∧
      (r.placements ≠ [] → (toStats r).bestPlacement ∈ r.placements ∧
        ∀ p ∈ r.placements, (toStats r).bestPlacement ≤ p)) ∧
    parseRecordToWinsLosses (some "3-0") = (3, 0) ∧
    parseRecordToWinsLosses (some "2-1") = (2, 1) ∧
    parseRecordToWinsLosses none = (0, 0) ∧
    parseRecordToWinsLosses (some "garbage") = (0, 0) ∧
    leaderboardPlayers leaderExample 1 =
      [{ playerName := "Alice", totalWins := 5, totalLosses := 1, eventsPlayed := 2,
         bestPlacement := 1, firstPlaceFinishes := 2, placements := [1, 1] }] := by
  refine ⟨?_, ?_, by decide, by decide, by decide, by decide, by decide⟩
  · intro eventStandings k hk
    constructor
    · intro r hr
      rw [aggregateStandings_eq_foldl] at hr
      rcases aggFold_none k hk (allIndexedEntries eventStandings) [] rfl with
        ⟨hfil, hnone⟩ | ⟨rx, hrx, hw, hl, he, hp⟩
      · rw [hnone] at hr
        cases hr
      · rw [hrx] at hr
        simp only [Option.some.injEq] at hr
        subst hr
        exact ⟨hw, hl, he, hp⟩
    · intro hnone
      rw [aggregateStandings_eq_foldl] at hnone
      rcases aggFold_none k hk (allIndexedEntries eventStandings) [] rfl with
        ⟨hfil, _⟩ | ⟨rx, hrx, _⟩
      · exact hfil
      · rw [hrx] at hnone
        cases hnone
  · intro r
    refine ⟨rfl, ?_⟩
    intro hne
    exact listMin_spec r.placements hne

/-- Witness for C7 at player identity 42 of `leaderExample`. -/
theorem claim_leaderboard_aggregation_witness :
    ("player_id:42" : String) ≠ "—" ∧
    jsMapGet (aggregateStandings leaderExample) "player_id:42" =
      some ⟨"Alice", false, 5, 1, 2, [1, 1]⟩ ∧
    ((⟨"Alice", false, 5, 1, 2, [1, 1]⟩ : AggRec).wins =
        ((keyEntries leaderExample "player_id:42").map
          fun q => (standingWinsLosses q.2).1).sum ∧
      (⟨"Alice", false, 5, 1, 2, [1, 1]⟩ : AggRec).losses =
        ((keyEntries leaderExample "player_id:42").map
          fun q => (standingWinsLosses q.2).2).sum ∧
      (⟨"Alice", false, 5, 1, 2, [1, 1]⟩ : AggRec).eventsPlayed =
        (keyEntries leaderExample "player_id:42").length ∧
      (⟨"Alice", false, 5, 1, 2, [1, 1]⟩ : AggRec).placements =
        (keyEntries leaderExample "player_id:42").map
          fun q => standingPlacement q.2 q.1) :=
  ⟨by decide, by decide,
    (claim_leaderboard_aggregation.1 leaderExample "player_id:42" (by decide)).1
      ⟨"Alice", false, 5, 1, 2, [1, 1]⟩ (by decide)⟩

/-! ## parseRetryAfterMs (claim C4) -/

theorem clampDelayInt_bounds (x m : Int) (hm : 0 ≤ m) :
    0 ≤ clampDelayInt x m ∧ clampDelayInt x m ≤ m := by
  unfold clampDelayInt
  exact ⟨le_max_left 0 _, max_le hm (min_le_right x m)⟩

/-- C4 counterexample: an HTTP date lying in the past does not make
`parseRetryAfterMs` return `null` — the negative delay is clamped to `0`.
`Date.parse` maps the date string to epoch time 631152000000 while the
current time is 2000000000000. -/
theorem claim_retry_after_counterexample :
    parseRetryAfterMs (some "Mon, 01 Jan 1990 00:00:00 GMT")
        (fun v => if v = "Mon, 01 Jan 1990 00:00:00 GMT".toList then some 631152000000
          else none)
        2000000000000 = some 0 ∧
    (some (0 : Int) ≠ (none : Option Int)) := by
  exact ⟨by decide, by decide⟩

/-- C4 (amended): an absent or blank header gives `null`; a numeric string
is interpreted as seconds, converted (with `Math.round`) to milliseconds and
clamped to [0, 60000] — negative numeric strings give `null`; a non-numeric
value is parsed as an HTTP date, giving `null` only when unparsable and
otherwise clamp(date − now, [0, 60000]) — so a past date yields 0, not null;
every non-`null` result lies in [0, 60000]; and `parseRetryAfterMs "1.5" =
1500`, `parseRetryAfterMs "-5" = null`, `parseRetryAfterMs "not-a-date" =
null` (with `Date.parse` failing). -/
theorem claim_retry_after_amended :
    (∀ (d : List Char → Option Int) (now : Int), parseRetryAfterMs none d now = none) ∧
    (∀ (d : List Char → Option Int) (now : Int) (s : String), jsTrim s.toList = [] →
      parseRetryAfterMs (some s) d now = none) ∧
    (∀ (d : List Char → Option Int) (now : Int) (s : String) (neg : Bool) (ip fp : List Char),
      matchNumericRetryAfter (jsTrim s.toList) = some (neg, ip, fp) →
      ¬jsTrim s.toList = [] →
      (neg = true → (decDigitsToNat ip ≠ 0 ∨ decDigitsToNat fp ≠ 0) →
        parseRetryAfterMs (some s) d now = none) ∧
      (neg = false →
        parseRetryAfterMs (some s) d now =
          some (clampDelayInt (retryAfterRoundedMs ip fp) MAX_SERVER_RETRY_DELAY_MS))) ∧
    (∀ (d : List Char → Option Int) (now : Int) (s : String),
      ¬jsTrim s.toList = [] → matchNumericRetryAfter (jsTrim s.toList) = none →
      (d (jsTrim s.toList) = none → parseRetryAfterMs (some s) d now = none) ∧
      (∀ t, d (jsTrim s.toList) = some t →
        parseRetryAfterMs (some s) d now =
          some (clampDelayInt (t - now) MAX_SERVER_RETRY_DELAY_MS))) ∧
    (∀ (ra : Option String) (d : List Char → Option Int) (now : Int) (q : Int),
      parseRetryAfterMs ra d now = some q → 0 ≤ q ∧ q ≤ 60000) ∧
    parseRetryAfterMs (some "1.5") (fun _ => none) 0 = some 1500 ∧
    parseRetryAfterMs (some "-5") (fun _ => none) 0 = none ∧
    parseRetryAfterMs (some "not-a-date") (fun _ => none) 0 = none := by
  have hmax : (0 : Int) ≤ MAX_SERVER_RETRY_DELAY_MS := by decide
  refine ⟨?_, ?_, ?_, ?_, ?_, by decide, by decide, by decide⟩
  · intro d now
    rfl
  · intro d now s h
    have h2 : jsTrim s.data = [] := h
    simp [parseRetryAfterMs, h2]
  · intro d now s neg ip fp hm hne
    have hm2 : matchNumericRetryAfter (jsTrim s.data) = some (neg, ip, fp) := hm
    have hne2 : ¬jsTrim s.data = [] := hne
    constructor
    · intro hneg hnz
      simp [parseRetryAfterMs, List.isEmpty_iff, hne2, hm2, hneg, hnz]
    · intro hneg
      subst hneg
      simp [parseRetryAfterMs, List.isEmpty_iff, hne2, hm2]
  · intro d now s hne hm
    have hm2 : matchNumericRetryAfter (jsTrim s.data) = none := hm
    have hne2 : ¬jsTrim s.data = [] := hne
    constructor
    · intro hd
      have hd2 : d (jsTrim s.data) = none := hd
      simp [parseRetryAfterMs, List.isEmpty_iff, hne2, hm2, hd2]
    · intro t hd
      have hd2 : d (jsTrim s.data) = some t := hd
      simp [parseRetryAfterMs, List.isEmpty_iff, hne2, hm2, hd2]
  · intro ra d now q h
    cases ra with
    | none => simp [parseRetryAfterMs] at h
    | some s =>
      simp only [parseRetryAfterMs] at h
      split at h
      · cases h
      · split at h
        next neg ip fp hm =>
          split at h
          · cases h
          · simp only [Option.some.injEq] at h
            subst h
            have hbnd := clampDelayInt_bounds (retryAfterRoundedMs ip fp)
              MAX_SERVER_RETRY_DELAY_MS hmax
            exact ⟨hbnd.1, hbnd.2⟩
        next hm =>
          split at h
          · cases h
          next t hd =>
            simp only [Option.some.injEq] at h
            subst h
            have hbnd := clampDelayInt_bounds (t - now) MAX_SERVER_RETRY_DELAY_MS hmax
            exact ⟨hbnd.1, hbnd.2⟩

/-- Witness for C4 at the numeric header `"2"`: two seconds become 2000
milliseconds, clamped within [0, 60000]. -/
theorem claim_retry_after_amended_witness :
    matchNumericRetryAfter (jsTrim ("2".toList)) = some (false, ['2'], []) ∧
    ¬jsTrim ("2".toList) = [] ∧
    parseRetryAfterMs (some "2") (fun _ => none) 0 =
      some (clampDelayInt (retryAfterRoundedMs ['2'] []) MAX_SERVER_RETRY_DELAY_MS) :=
  ⟨by decide, by decide,
    (claim_retry_after_amended.2.2.1 (fun _ => none) 0 "2" false ['2'] []
      (by decide) (by decide)).2 rfl⟩

/-! ## getJitteredBackoffDelayMs (claim C5) -/

/-- C5 counterexample: the computed delay is not always
`min(base × 2^attempt, 5000) × (0.5 + r)` — the jittered product is capped at
5000 again. At `attempt = 0`, `base = 5000`, `r = 1` the claimed formula gives
7500 while the code returns 5000. -/
theorem claim_backoff_counterexample :
    ((getJitteredBackoffDelayMs 0 5000 1 : ℤ) : ℚ) ≠
      min ((5000 : ℚ) * 2 ^ (0 : Nat)) 5000 * (1 / 2 + 1) := by
  have h : getJitteredBackoffDelayMs 0 5000 1 = 5000 := by
    simp only [getJitteredBackoffDelayMs, clampDelay, MAX_BACKOFF_DELAY_MS]
    norm_num [round_eq]
  rw [h]
  norm_num

/-- C5 (amended): for a positive base delay and a jitter draw `r ∈ [0, 1]`,
the delay equals `round(min(min(min(base, 5000) × 2^attempt, 5000) × (0.5 + r),
5000))` — the exponential term uses the base clamped to at most 5000, and the
jittered product is capped at 5000 before rounding; in particular
`(2, 100, 0) ↦ 200`, `(2, 100, 1) ↦ 600`, and `(10, 5000, 1) ↦ 5000`. -/
theorem claim_backoff_amended (attempt : Nat) (baseDelayMs r : ℚ)
    (hb : 0 < baseDelayMs) (hr0 : 0 ≤ r) (hr1 : r ≤ 1) :
    getJitteredBackoffDelayMs attempt baseDelayMs r =
      round (min (min (min baseDelayMs 5000 * 2 ^ attempt) 5000 * (1 / 2 + r)) 5000) ∧
    getJitteredBackoffDelayMs 2 100 0 = 200 ∧
    getJitteredBackoffDelayMs 2 100 1 = 600 ∧
    getJitteredBackoffDelayMs 10 5000 1 = 5000 := by
  refine ⟨?_, ?_, ?_, ?_⟩
  · simp only [getJitteredBackoffDelayMs, clampDelay, MAX_BACKOFF_DELAY_MS]
    have h1 : max 0 (min baseDelayMs 5000) = min baseDelayMs 5000 :=
      max_eq_right (le_min hb.le (by norm_num))
    have h2 : ¬min baseDelayMs 5000 = 0 :=
      ne_of_gt (lt_min hb (by norm_num))
    have h3 : max 0 (min r 1) = r := by
      rw [min_eq_left hr1]
      exact max_eq_right hr0
    rw [h1, if_neg h2, h3]
  · simp only [getJitteredBackoffDelayMs, clampDelay, MAX_BACKOFF_DELAY_MS]
    norm_num [round_eq]
  · simp only [getJitteredBackoffDelayMs, clampDelay, MAX_BACKOFF_DELAY_MS]
    norm_num [round_eq]
  · simp only [getJitteredBackoffDelayMs, clampDelay, MAX_BACKOFF_DELAY_MS]
    norm_num [round_eq]

/-- Witness for C5 at `(attempt, base, r) = (2, 100, 0)`. -/
theorem claim_backoff_amended_witness :
    (0 : ℚ) < 100 ∧ (0 : ℚ) ≤ 0 ∧ (0 : ℚ) ≤ 1 ∧
    getJitteredBackoffDelayMs 2 100 0 =
      round (min (min (min (100 : ℚ) 5000 * 2 ^ (2 : Nat)) 5000 * (1 / 2 + 0)) 5000) :=
  ⟨by norm_num, le_refl 0, by norm_num,
    (claim_backoff_amended 2 100 0 (by norm_num) (le_refl 0) (by norm_num)).1⟩

/-! ## fetchWithRetry lemmas and claim C6 -/

theorem fetchWithRetryGo_succ (attempts : Nat → FetchOutcome) (maxRetries fuel attempt : Nat)
    (le : Option JsError) :
    fetchWithRetryGo attempts maxRetries (fuel + 1) attempt le =
      match attempts attempt with
      | .resp r =>
        if responseOk r then (.ok r, 1)
        else if attempt < maxRetries ∧ retryableStatus r.status = true then
          ((fetchWithRetryGo attempts maxRetries fuel (attempt + 1) le).1,
            (fetchWithRetryGo attempts maxRetries fuel (attempt + 1) le).2 + 1)
        else (.ok r, 1)
      | .err e =>
        if attempt < maxRetries ∧ isRetryableError e = true then
          ((fetchWithRetryGo attempts maxRetries fuel (attempt + 1) (some e)).1,
            (fetchWithRetryGo attempts maxRetries fuel (attempt + 1) (some e)).2 + 1)
        else (.error e, 1) := by
  rfl

theorem fetchWithRetryGo_resp_stop {attempts : Nat → FetchOutcome} {maxRetries attempt : Nat}
    {le : Option JsError} {r : Response} (fuel : Nat) (h : attempts attempt = .resp r)
    (hstop : responseOk r = true ∨ ¬(attempt < maxRetries ∧ retryableStatus r.status = true)) :
    fetchWithRetryGo attempts maxRetries (fuel + 1) attempt le = (.ok r, 1) := by
  rw [fetchWithRetryGo_succ, h]
  rcases hstop with hok | hnr
  · simp [hok]
  · cases hok : responseOk r <;> simp [hok, hnr]

theorem fetchWithRetryGo_resp_retry {attempts : Nat → FetchOutcome} {maxRetries attempt : Nat}
    {le : Option JsError} {r : Response} (fuel : Nat) (h : attempts attempt = .resp r)
    (hok : responseOk r = false)
    (hretry : attempt < maxRetries ∧ retryableStatus r.status = true) :
    fetchWithRetryGo attempts maxRetries (fuel + 1) attempt le =
      ((fetchWithRetryGo attempts maxRetries fuel (attempt + 1) le).1,
        (fetchWithRetryGo attempts maxRetries fuel (attempt + 1) le).2 + 1) := by
  rw [fetchWithRetryGo_succ, h]
  simp [hok, hretry]

theorem fetchWithRetryGo_err_stop {attempts : Nat → FetchOutcome} {maxRetries attempt : Nat}
    {le : Option JsError} {e : JsError} (fuel : Nat) (h : attempts attempt = .err e)
    (hnr : ¬(attempt < maxRetries ∧ isRetryableError e = true)) :
    fetchWithRetryGo attempts maxRetries (fuel + 1) attempt le = (.error e, 1) := by
  rw [fetchWithRetryGo_succ, h]
  simp [hnr]

theorem fetchWithRetryGo_err_retry {attempts : Nat → FetchOutcome} {maxRetries attempt : Nat}
    {le : Option JsError} {e : JsError} (fuel : Nat) (h : attempts attempt = .err e)
    (hretry : attempt < maxRetries ∧ isRetryableError e = true) :
    fetchWithRetryGo attempts maxRetries (fuel + 1) attempt le =
      ((fetchWithRetryGo attempts maxRetries fuel (attempt + 1) (some e)).1,
        (fetchWithRetryGo attempts maxRetries fuel (attempt + 1) (some e)).2 + 1) := by
  rw [fetchWithRetryGo_succ, h]
  simp [hretry]

theorem fetchWithRetryGo_requests (attempts : Nat → FetchOutcome) (maxRetries : Nat) :
    ∀ (fuel attempt : Nat) (le : Option JsError),
      (fetchWithRetryGo attempts maxRetries fuel attempt le).2 ≤ fuel := by
  intro fuel
  induction fuel with
  | zero => intro attempt le; simp [fetchWithRetryGo]
  | succ fuel ih =>
    intro attempt le
    cases h : attempts attempt with
    | resp r =>
      by_cases hok : responseOk r = true
      · rw [fetchWithRetryGo_resp_stop fuel h (Or.inl hok)]
        omega
      · by_cases hretry : attempt < maxRetries ∧ retryableStatus r.status = true
        · rw [fetchWithRetryGo_resp_retry fuel h (by simpa using hok) hretry]
          have := ih (attempt + 1) le
          simpa using this
        · rw [fetchWithRetryGo_resp_stop fuel h (Or.inr hretry)]
          omega
    | err e =>
      by_cases hretry : attempt < maxRetries ∧ isRetryableError e = true
      · rw [fetchWithRetryGo_err_retry fuel h hretry]
        have := ih (attempt + 1) (some e)
        simpa using this
      · rw [fetchWithRetryGo_err_stop fuel h hretry]
        omega

theorem fetchWithRetryGo_error_src (attempts : Nat → FetchOutcome) (maxRetries : Nat) :
    ∀ (fuel attempt : Nat) (le : Option JsError) (e : JsError),
      fuel = maxRetries + 1 - attempt → attempt ≤ maxRetries →
      (fetchWithRetryGo attempts maxRetries fuel attempt le).1 = .error e →
      ∃ i, attempt ≤ i ∧ i ≤ maxRetries ∧ attempts i = .err e := by
  intro fuel
  induction fuel with
  | zero => intro attempt le e hfuel hle _; omega
  | succ fuel ih =>
    intro attempt le e hfuel hle h
    cases ha : attempts attempt with
    | resp r =>
      by_cases hok : responseOk r = true
      · rw [fetchWithRetryGo_resp_stop fuel ha (Or.inl hok)] at h
        cases h
      · by_cases hretry : attempt < maxRetries ∧ retryableStatus r.status = true
        · rw [fetchWithRetryGo_resp_retry fuel ha (by simpa using hok) hretry] at h
          simp only at h
          rcases ih (attempt + 1) le e (by omega) (by omega) h with ⟨i, hi1, hi2, hi3⟩
          exact ⟨i, by omega, hi2, hi3⟩
        · rw [fetchWithRetryGo_resp_stop fuel ha (Or.inr hretry)] at h
          cases h
    | err e0 =>
      by_cases hretry : attempt < maxRetries ∧ isRetryableError e0 = true
      · rw [fetchWithRetryGo_err_retry fuel ha hretry] at h
        simp only at h
        rcases ih (attempt + 1) (some e0) e (by omega) (by omega) h with ⟨i, hi1, hi2, hi3⟩
        exact ⟨i, by omega, hi2, hi3⟩
      · rw [fetchWithRetryGo_err_stop fuel ha hretry] at h
        simp only [Except.error.injEq] at h
        exact ⟨attempt, Nat.le_refl _, hle, by rw [ha, h]⟩

theorem fetchWithRetryGo_all_retry_resp (attempts : Nat → FetchOutcome) (maxRetries : Nat) :
    ∀ (fuel attempt : Nat) (le : Option JsError),
      fuel = maxRetries + 1 - attempt → attempt ≤ maxRetries →
      (∀ i, attempt ≤ i → i ≤ maxRetries → ∃ r, attempts i = .resp r ∧
        responseOk r = false ∧ retryableStatus r.status = true) →
      ∃ r, attempts maxRetries = .resp r ∧
        fetchWithRetryGo attempts maxRetries fuel attempt le = (.ok r, fuel) := by
  intro fuel
  induction fuel with
  | zero => intro attempt le hfuel hle _; omega
  | succ fuel ih =>
    intro attempt le hfuel hle hall
    rcases hall attempt (Nat.le_refl _) hle with ⟨r, ha, hok, hretry⟩
    by_cases hlast : attempt = maxRetries
    · have hf0 : fuel = 0 := by omega
      subst hf0
      subst hlast
      exact ⟨r, ha, fetchWithRetryGo_resp_stop 0 ha (Or.inr (by simp))⟩
    · have hlt : attempt < maxRetries := by omega
      rcases ih (attempt + 1) le (by omega) (by omega)
        (fun i hi1 hi2 => hall i (by omega) hi2) with ⟨rM, hM, hgo⟩
      refine ⟨rM, hM, ?_⟩
      rw [fetchWithRetryGo_resp_retry fuel ha hok ⟨hlt, hretry⟩, hgo]

theorem fetchWithRetryGo_all_retry_err (attempts : Nat → FetchOutcome) (maxRetries : Nat) :
    ∀ (fuel attempt : Nat) (le : Option JsError),
      fuel = maxRetries + 1 - attempt → attempt ≤ maxRetries →
      (∀ i, attempt ≤ i → i ≤ maxRetries → ∃ e, attempts i = .err e ∧
        isRetryableError e = true) →
      ∃ e, attempts maxRetries = .err e ∧
        fetchWithRetryGo attempts maxRetries fuel attempt le = (.error e, fuel) := by
  intro fuel
  induction fuel with
  | zero => intro attempt le hfuel hle _; omega
  | succ fuel ih =>
    intro attempt le hfuel hle hall
    rcases hall attempt (Nat.le_refl _) hle with ⟨e, ha, hretry⟩
    by_cases hlast : attempt = maxRetries
    · have hf0 : fuel = 0 := by omega
      subst hf0
      subst hlast
      exact ⟨e, ha, fetchWithRetryGo_err_stop 0 ha (by simp)⟩
    · have hlt : attempt < maxRetries := by omega
      rcases ih (attempt + 1) (some e) (by omega) (by omega)
        (fun i hi1 hi2 => hall i (by omega) hi2) with ⟨eM, hM, hgo⟩
      refine ⟨eM, hM, ?_⟩
      rw [fetchWithRetryGo_err_retry fuel ha ⟨hlt, hretry⟩, hgo]

/-- C6: `fetchWithRetry` never throws because of an HTTP status. A first
response whose status is outside the retryable set {408, 425, 429, 500, 502,
503, 504} is returned immediately after a single attempt; when every attempt
yields a retryable non-ok response, the final attempt's response is returned
as-is after `maxRetries + 1` attempts; any error result is the value thrown
by some attempt's transport failure — thrown after one attempt when not
retryable, or, when every attempt throws retryably, the last attempt's error
after `maxRetries + 1` attempts; and at most `maxRetries + 1` attempts are
ever made. -/
theorem claim_fetch_with_retry (attempts : Nat → FetchOutcome) (maxRetries : Nat) :
    (∀ r, attempts 0 = .resp r → responseOk r = false → retryableStatus r.status = false →
      fetchWithRetry attempts maxRetries = (.ok r, 1)) ∧
    ((∀ i, i ≤ maxRetries → ∃ r, attempts i = .resp r ∧ responseOk r = false ∧
        retryableStatus r.status = true) →
      ∃ r, attempts maxRetries = .resp r ∧
        fetchWithRetry attempts maxRetries = (.ok r, maxRetries + 1)) ∧
    (∀ e, (fetchWithRetry attempts maxRetries).1 = .error e →
      ∃ i, i ≤ maxRetries ∧ attempts i = .err e) ∧
    (∀ e, attempts 0 = .err e → isRetryableError e = false →
      fetchWithRetry attempts maxRetries = (.error e, 1)) ∧
    ((∀ i, i ≤ maxRetries → ∃ e, attempts i = .err e ∧ isRetryableError e = true) →
      ∃ e, attempts maxRetries = .err e ∧
        fetchWithRetry attempts maxRetries = (.error e, maxRetries + 1)) ∧
    (fetchWithRetry attempts maxRetries).2 ≤ maxRetries + 1 := by
  refine ⟨?_, ?_, ?_, ?_, ?_, ?_⟩
  · intro r h hok hnr
    exact fetchWithRetryGo_resp_stop maxRetries h (Or.inr (by simp [hnr]))
  · intro hall
    rcases fetchWithRetryGo_all_retry_resp attempts maxRetries (maxRetries + 1) 0 none
      (by omega) (by omega) (fun i _ hi2 => hall i hi2) with ⟨r, hM, hgo⟩
    exact ⟨r, hM, hgo⟩
  · intro e h
    rcases fetchWithRetryGo_error_src attempts maxRetries (maxRetries + 1) 0 none e
      (by omega) (by omega) h with ⟨i, _, hi2, hi3⟩
    exact ⟨i, hi2, hi3⟩
  · intro e h hnr
    exact fetchWithRetryGo_err_stop maxRetries h (by simp [hnr])
  · intro hall
    rcases fetchWithRetryGo_all_retry_err attempts maxRetries (maxRetries + 1) 0 none
      (by omega) (by omega) (fun i _ hi2 => hall i hi2) with ⟨e, hM, hgo⟩
    exact ⟨e, hM, hgo⟩
  · exact fetchWithRetryGo_requests attempts maxRetries (maxRetries + 1) 0 none

/-- Witness for C6: a 404 response is returned immediately, consuming a
single attempt, under the default retry policy of one retry. -/
theorem claim_fetch_with_retry_witness :
    (fun _ : Nat => FetchOutcome.resp ⟨404, "nf"⟩) 0 = .resp ⟨404, "nf"⟩ ∧
    responseOk ⟨404, "nf"⟩ = false ∧
    retryableStatus (404 : Nat) = false ∧
    fetchWithRetry (fun _ => .resp ⟨404, "nf"⟩) DEFAULT_MAX_RETRIES = (.ok ⟨404, "nf"⟩, 1) :=
  ⟨rfl, by decide, by decide,
    (claim_fetch_with_retry (fun _ => .resp ⟨404, "nf"⟩) DEFAULT_MAX_RETRIES).1
      ⟨404, "nf"⟩ rfl (by decide) (by decide)⟩

/-- Witness for C10: a round with an empty cache performs at least one page
request. -/
theorem claim_round_cache_write_policy_witness :
    stateWF clearCaches ∧
    jsMapGet clearCaches.roundStandingsCache 7 = none ∧
    1 ≤ (fetchAllRoundStandings sampleUpstream clearCaches 7 false).2.2 :=
  ⟨⟨by simp [clearCaches], by simp [clearCaches]⟩, by decide,
    (claim_round_cache_write_policy sampleUpstream clearCaches 7 false
      ⟨by simp [clearCaches], by simp [clearCaches]⟩).2.2 (by decide)⟩

end PlayHub
